import Mathlib

/-!
# Verification of `fairlearn.metrics.MetricFrame`

Shallow embedding of `src/fairlearn/metrics/_metric_frame.py` (the
disaggregated-metric computation engine) and proofs about it.

Conventions of the embedding:

* `y_true` / `y_pred` arrays are one-dimensional numeric vectors, modelled as
  `List ℚ`.  The external flattener `_convert_to_ndarray_and_squeeze` is the
  identity on such already-flat input.
* Feature columns hold Python scalars or (after the unchecked list path)
  non-scalar elements; both are captured by `FeatureElem`.
* Python containers appearing as streaming batch values (`None`, 1-d
  `np.ndarray` / `list`, `dict` of arrays) are captured by `Batch α`.
  Nested dicts-of-dicts (sample params for dict metrics) are not modelled.
* Errors raised by the Python code are modelled as `Except Err`; a `raise`
  in the middle of a mutating method is modelled by returning the partially
  mutated state together with the error (`StreamingState × Option Err`).
* `ℚ` stands for the numeric values; NaN cells of pandas objects are `none`
  in `Option ℚ`, and pandas `max`/`min` skip `none` exactly as they
  skip NaN.
-/

namespace Fairlearn

/-- The error conditions raised by `_metric_frame.py` and its collaborators. -/
inductive Err where
  | badInit                        -- _BAD_INIT_ERROR
  | nonEmptyInit                   -- _NON_EMPTY_INIT_ERR
  | emptyBatches                   -- _EMPTY_BATCHES_ERR
  | cfBadState                     -- _CF_BAD_STATE_ERR
  | inconsistentLength             -- sklearn check_consistent_length failure
  | notStreaming                   -- "This MetricFrame does not support adding data."
  | concatTypeMismatch             -- "Can't concatenate arrays of different types."
  | cantConcatenate                -- f"Can't concatenate {batches}"
  | keyError                       -- Python KeyError in the dict comprehension
  | indexError                     -- Python IndexError (features[0] on empty list)
  | nonScalarFeatureList           -- _FEATURE_LIST_NONSCALAR
  | duplicateFeatureName           -- _DUPLICATE_FEATURE_NAME
  | sampleParamsAlreadySet         -- "initialized with sample_params already set."
  | sampleParamsExpected           -- "expected sample_params to be supplied."
  | sampleParamsNotDict            -- _SAMPLE_PARAMS_NOT_DICT
  | sampleParamKeysNotInFuncDict   -- _SAMPLE_PARAM_KEYS_NOT_IN_FUNC_DICT
  deriving DecidableEq, Repr

/-- An element of a raw feature column: a Python scalar, or a non-scalar
(e.g. a nested list), which `np.isscalar` distinguishes. -/
inductive FeatureElem where
  | scalar (v : String)
  | nonscalar (vs : List String)
  deriving DecidableEq, Repr

/-- A Python value buffered or concatenated by `MetricFrame._concat_batches`:
`None`, a flat array/list, or a dict of arrays (dict values in the claims at
hand are always arrays; `_concat_batches` recurses into them with its
array branch). -/
inductive Batch (α : Type) where
  | pynone
  | arr (xs : List α)
  | dict (entries : List (String × List α))
  deriving DecidableEq, Repr

/-- Python `len` of a batch value, as seen by sklearn `_num_samples`:
`len(list)` is the element count, `len(dict)` is the key count, and `None`
has no length (sklearn skips `None` arguments entirely, hence `Option`). -/
def Batch.pyLen : Batch α → Option ℕ
  | .pynone => none
  | .arr xs => some xs.length
  | .dict es => some es.length

/-- `sklearn.utils.check_consistent_length` (external collaborator): collects
the lengths of all non-`None` arguments and fails iff two of them differ. -/
def checkConsistentLength (ls : List (Option ℕ)) : Except Err Unit :=
  let lens := ls.filterMap id
  if (lens.dedup).length ≤ 1 then .ok () else .error .inconsistentLength

/-- Association-list lookup used to model Python's `batch[k]`
(raising `KeyError` when missing, hence `Option`). -/
def alookup (k : String) : List (String × β) → Option β
  | [] => none
  | (k', v) :: es => if k' = k then some v else alookup k es

/-- Total variant of `alookup` with default `[]`, used to state results
once all lookups are known to succeed. -/
def alookupD (k : String) (es : List (String × List α)) : List α :=
  (alookup k es).getD []

/-- Whether two batches have the same Python type
(`type(arr) is batch_type` in `_concat_batches`). -/
def Batch.sameType : Batch α → Batch α → Bool
  | .pynone, .pynone => true
  | .arr _, .arr _ => true
  | .dict _, .dict _ => true
  | _, _ => false

/-- `[batch[k] for batch in batches]` over the tail batches: `None` iff
some `batch[k]` raises `KeyError` (a non-dict tail is ruled out earlier
by the type check). -/
def lookupAll (k : String) : List (Batch α) → Option (List (List α))
  | [] => some []
  | b :: bs =>
    match b with
    | .dict es => (alookup k es).bind (fun v => (lookupAll k bs).map (v :: ·))
    | _ => none

/-- The dict comprehension of `_concat_batches`: iterate the *first*
batch's entries in order; for each key gather that key's value from every
batch and concatenate them (the values are arrays, so the inner recursive
`_concat_batches` call is the array branch: a plain join of the non-empty
same-typed value list). -/
def concatDictEntries (rest : List (Batch α)) :
    List (String × List α) → Option (List (String × List α))
  | [] => some []
  | kv :: es =>
    (lookupAll kv.1 rest).bind (fun vs =>
      (concatDictEntries rest es).map ((kv.1, kv.2 ++ vs.flatten) :: ·))

/-- `MetricFrame._concat_batches`: concatenate a list of batches.
Raises on an empty list; raises if the batches are not all of one type;
`ndarray`/`list` batches are joined; `dict` batches are concatenated
key-by-key over the *first* batch's keys via `concatDictEntries`; a
`None` batch (type `NoneType`) matches no branch and hits the final
`raise`. -/
def concatBatches : List (Batch α) → Except Err (Batch α)
  | [] => .error .emptyBatches
  | b :: rest =>
    if !(rest.all (Batch.sameType b)) then .error .concatTypeMismatch
    else
      match b with
      | .pynone => .error .cantConcatenate
      | .arr xs =>
        .ok (.arr (xs ++ (rest.map (fun b' => match b' with
          | .arr ys => ys
          | _ => [])).flatten))
      | .dict es =>
        match concatDictEntries rest es with
        | some entries => .ok (.dict entries)
        | none => .error .keyError

/-- First-seen deduplication, with the set of already-seen values as an
accumulator. -/
def firstSeenAux [DecidableEq α] (seen : List α) : List α → List α
  | [] => []
  | a :: l =>
    if a ∈ seen then firstSeenAux seen l
    else a :: firstSeenAux (a :: seen) l

/-- First-seen deduplication: the ordered set of distinct values of a
column, keeping the first occurrence of each value. -/
def firstSeen [DecidableEq α] (l : List α) : List α := firstSeenAux [] l

/-- Modelled from the spec: `GroupFeature`
(`fairlearn/metrics/_group_feature.py` is not under `src/`).  Per §3 of the
spec a Feature exposes a `name`, the ordered set `classes` of distinct
values observed in its column (stable, deterministic order — first-seen
here), and a per-class boolean mask accessor over the column. -/
structure GroupFeature where
  name : String
  column : List FeatureElem
  deriving DecidableEq, Repr

/-- The ordered distinct class values of a feature (spec §3). -/
def GroupFeature.classes (f : GroupFeature) : List FeatureElem :=
  firstSeen f.column

/-- The boolean membership mask for one class value (spec §3). -/
def GroupFeature.getMaskForClass (f : GroupFeature) (c : FeatureElem) : List Bool :=
  f.column.map (fun v => v = c)

/-- Modelled from the spec: `FunctionContainer`
(`fairlearn/metrics/_function_container.py` is not under `src/`).  Per §4.2
it wraps one metric function and its bound per-sample parameters, and
evaluates either over the whole dataset or over a boolean mask, slicing
`y_true`, `y_pred` and every parameter array with the identical mask. -/
structure FunctionContainer where
  name_ : String
  fn : List ℚ → List ℚ → List (String × List ℚ) → ℚ
  sampleParams : List (String × List ℚ)

/-- Boolean-mask selection of a vector (`x[mask]` in numpy). -/
def applyMask (mask : List Bool) (xs : List α) : List α :=
  ((mask.zip xs).filter (fun p => p.1)).map (fun p => p.2)

/-- Spec §4.2: evaluate the wrapped function over the entire dataset. -/
def FunctionContainer.evaluateAll (fc : FunctionContainer)
    (yt yp : List ℚ) : ℚ :=
  fc.fn yt yp fc.sampleParams

/-- Spec §4.2: evaluate over the masked subset, all arrays sliced with the
identical mask. -/
def FunctionContainer.evaluate (fc : FunctionContainer)
    (yt yp : List ℚ) (mask : List Bool) : ℚ :=
  fc.fn (applyMask mask yt) (applyMask mask yp)
    (fc.sampleParams.map (fun kv => (kv.1, applyMask mask kv.2)))

/-- Pointwise logical AND of two masks (`np.logical_and`). -/
def maskAnd (a b : List Bool) : List Bool := List.zipWith and a b

/-- `MetricFrame._mask_from_tuple`: AND together the per-feature class
masks for one row combination (left fold starting from the first
feature's mask). -/
def maskFromTuple (features : List GroupFeature) (t : List FeatureElem) : List Bool :=
  match features, t with
  | f :: fs, c :: cs =>
    (fs.zip cs).foldl (fun m fc => maskAnd m (fc.1.getMaskForClass fc.2))
      (f.getMaskForClass c)
  | _, _ => []

/-- `sum(mask)`: the number of selected samples. -/
def maskCount (mask : List Bool) : ℕ := (mask.filter id).length

/-- `pd.MultiIndex.from_product` (or the single `pd.Index` when there is
exactly one row feature, whose entries we write as one-element tuples):
every combination of the feature classes, outer loop over the first
feature. -/
def crossProduct : List (List FeatureElem) → List (List FeatureElem)
  | [] => [[]]
  | cs :: rest => cs.flatMap (fun c => (crossProduct rest).map (c :: ·))

/-- A labeled result table: the row index (tuples of class values) and one
column of optional cells per metric function, each column aligned with the
row index.  A `none` cell is a pandas NaN / absent value. -/
structure MetricTable where
  rowIndex : List (List FeatureElem)
  columns : List (String × List (Option ℚ))
  deriving DecidableEq

/-- `MetricFrame._compute_dataframe_from_rows`: the grouping/masking
engine.  For every (function, row-combination) cell, the combined mask is
built; the metric function is evaluated only when the mask selects at
least one sample (`if sum(mask) > 0`), and the cell is left absent
(`none`) otherwise. -/
def computeDataframeFromRows (funcs : List FunctionContainer)
    (yt yp : List ℚ) (rows : List GroupFeature) : MetricTable :=
  let rowIndex := crossProduct (rows.map GroupFeature.classes)
  { rowIndex := rowIndex
    columns := funcs.map (fun fc =>
      (fc.name_, rowIndex.map (fun t =>
        let mask := maskFromTuple rows t
        if maskCount mask > 0 then some (fc.evaluate yt yp mask) else none))) }

/-- Instrumentation: the list of masks on which
`_compute_dataframe_from_rows` invokes `FunctionContainer.evaluate` for
one function column — exactly the row masks passing the
`sum(mask) > 0` guard. -/
def calledMasks (rows : List GroupFeature) : List (List Bool) :=
  ((crossProduct (rows.map GroupFeature.classes)).map
    (fun t => maskFromTuple rows t)).filter (fun m => maskCount m > 0)

/-- The raw `_overall` object: a `pd.Series` indexed by function names when
there are no control features, a `pd.DataFrame` otherwise. -/
inductive OverallStore where
  | series (vs : List (String × ℚ))
  | table (t : MetricTable)
  deriving DecidableEq

/-- `MetricFrame._compute_overall`. -/
def computeOverall (funcs : List FunctionContainer) (yt yp : List ℚ)
    (cfList : Option (List GroupFeature)) : OverallStore :=
  match cfList with
  | none => .series (funcs.map (fun fc => (fc.name_, fc.evaluateAll yt yp)))
  | some cfs => .table (computeDataframeFromRows funcs yt yp cfs)

/-- `MetricFrame._compute_by_group`: control features (if any) are
prepended to the sensitive features and the same engine runs. -/
def computeByGroup (funcs : List FunctionContainer) (yt yp : List ℚ)
    (sfList : List GroupFeature) (cfList : Option (List GroupFeature)) :
    MetricTable :=
  computeDataframeFromRows funcs yt yp ((cfList.getD []) ++ sfList)

/-- The `metric` constructor argument: a single bare callable or a named
dictionary of callables. -/
inductive MetricSpec where
  | single (fn : List ℚ → List ℚ → List (String × List ℚ) → ℚ)
  | dict (fns : List (String × (List ℚ → List ℚ → List (String × List ℚ) → ℚ)))

/-- `self._user_supplied_callable`: whether `metric` was a bare callable. -/
def MetricSpec.isSingle : MetricSpec → Bool
  | .single _ => true
  | .dict _ => false

/-- The sample params reaching `_process_functions` in this embedding:
absent, or one flat mapping param-name → array.  (Nested per-metric
dicts are outside the embedded `Batch` shapes; handing any value of this
flat shape to a per-metric `FunctionContainer` trips its mapping check.) -/
def SampleParams := Option (List (String × List ℚ))

/-- `MetricFrame._process_functions`: wrap the metric(s) into
`FunctionContainer`s.  A bare callable gets the sentinel name (`None` in
Python, rendered here as `"metric"`) and the whole sample-params mapping;
a dict of callables requires the sample-params keys to be a subset of the
metric names, and each per-metric value must itself be a mapping (spec
§4.2: a non-mapping raises `_SAMPLE_PARAMS_NOT_DICT`) — in this embedding
per-metric values are flat arrays, so dict metrics accept only absent
sample params. -/
def processFunctions (m : MetricSpec) (sp : SampleParams) :
    Except Err (List FunctionContainer) :=
  match m with
  | .single fn =>
    .ok [{ name_ := "metric", fn := fn, sampleParams := (sp.getD []) }]
  | .dict fns =>
    match sp with
    | none => .ok (fns.map (fun nf =>
        { name_ := nf.1, fn := nf.2, sampleParams := [] }))
    | some spd =>
      if (spd.map Prod.fst).all (fun k => (fns.map Prod.fst).contains k) then
        if spd.isEmpty then
          .ok (fns.map (fun nf => { name_ := nf.1, fn := nf.2, sampleParams := [] }))
        else .error .sampleParamsNotDict
      else .error .sampleParamKeysNotInFuncDict

/-- The per-column loop of the dict branch of `_process_features`
(`pd.DataFrame.from_dict` preserves key insertion order; every key is a
`String` here, so the non-string column-name check cannot fire): check
each column's length against the reference data and wrap it as a
feature named by its key. -/
def processDictColumns (sampleLen : ℕ) :
    List (String × List FeatureElem) → Except Err (List GroupFeature)
  | [] => .ok []
  | kv :: cols => do
    checkConsistentLength [some kv.2.length, some sampleLen]
    let rest ← processDictColumns sampleLen cols
    .ok (({ name := kv.1, column := kv.2 } : GroupFeature) :: rest)

/-- `MetricFrame._process_features` restricted to the feature input shapes
of the embedding (a flat Python list of elements, or a dict of columns; a
Python `None` has neither shape).  The flat-list branch inspects *only the
first element* with `np.isscalar`: a scalar first element sends the whole
list through `np.asarray`/`np.squeeze` (length-preserving on a flat list)
into a single feature named `<base_name>0`; a non-scalar first element
raises `_FEATURE_LIST_NONSCALAR`; an empty list makes `features[0]` raise
`IndexError`.  The dict branch builds one feature per key (insertion
order), named by the key, checking each column's length. -/
def processFeatures (baseName : String) (features : Batch FeatureElem)
    (sampleLen : ℕ) : Except Err (List GroupFeature) :=
  match features with
  | .arr [] => .error .indexError
  | .arr (e :: rest) =>
    match e with
    | .scalar _ => do
      checkConsistentLength [some (e :: rest).length, some sampleLen]
      .ok [{ name := baseName ++ "0", column := e :: rest }]
    | .nonscalar _ => .error .nonScalarFeatureList
  | .dict cols => processDictColumns sampleLen cols
  | .pynone => .error .indexError

/-- Everything `_compute_metric` derives and stores on the frame, plus the
number of metric-function invocations it performs (the spec's
"function-call counter" instrumentation): `evaluate_all` once per function
when there are no control features, and one `evaluate` per non-absent
cell of the overall/by-group tables. -/
structure ComputedData where
  overall : OverallStore
  byGroup : MetricTable
  sfNames : List String
  cfNames : Option (List String)
  calls : ℕ
  deriving DecidableEq

/-- Number of non-absent cells of a table = number of `evaluate` calls
made while filling it. -/
def MetricTable.someCells (t : MetricTable) : ℕ :=
  (t.columns.map (fun c => (c.2.filterMap id).length)).sum

/-- Metric invocations made by `_compute_overall`. -/
def OverallStore.callCount : OverallStore → ℕ
  | .series vs => vs.length
  | .table t => t.someCells

/-- `MetricFrame._compute_metric`: process the sensitive and control
features, reject duplicate names across their union, wrap the functions,
then compute `_overall` and `_by_group`. -/
def computeMetric (m : MetricSpec) (yt yp : List ℚ)
    (sf : Batch FeatureElem) (cf : Batch FeatureElem) (sp : SampleParams) :
    Except Err ComputedData := do
  let sfList ← processFeatures "sensitive_feature_" sf yt.length
  let sfNames := sfList.map GroupFeature.name
  let cfData ← (match cf with
    | .pynone => .ok none
    | _ => do
      let cfList ← processFeatures "control_feature_" cf yt.length
      pure (some cfList) : Except Err (Option (List GroupFeature)))
  let cfNames := cfData.map (·.map GroupFeature.name)
  let namelist := sfNames ++ ((cfNames.getD []))
  if namelist.Nodup then do
    let funcs ← processFunctions m sp
    let overall := computeOverall funcs yt yp cfData
    let byGroup := computeByGroup funcs yt yp sfList cfData
    .ok { overall := overall, byGroup := byGroup, sfNames := sfNames,
          cfNames := cfNames, calls := overall.callCount + byGroup.someCells }
  else .error .duplicateFeatureName

/-! ## Streaming accumulator (`streaming=True` frames) -/

/-- The shape of `self._s_p` over a streaming frame's lifetime: `None`, the
dict supplied at construction (never concatenated: `metric_s_p` is true for
a dict), or the list of per-batch dicts built up by `add_data`. -/
inductive SPState where
  | noneSP
  | initDict (d : List (String × List ℚ))
  | batches (ds : List (List (String × List ℚ)))
  deriving DecidableEq

/-- The mutable state of a `MetricFrame`: the raw batch buffers, the two
result caches, and the cached feature-name lists. -/
structure StreamingState where
  streaming : Bool
  metric : MetricSpec
  yTrue : List (List ℚ)
  yPred : List (List ℚ)
  sF : List (Batch FeatureElem)
  cF : Option (List (Batch FeatureElem))
  sP : SPState
  overallCache : Option OverallStore
  byGroupCache : Option MetricTable
  sfNames : Option (List String)
  cfNames : Option (List String)

/-- `MetricFrame.__init__` with `streaming=True` and valid (empty)
accumulator arguments: `control_features` was `[]` (`useCF = true`) or
`None` (`useCF = false`); `sample_params` is stored unvalidated. -/
def mkStreaming (m : MetricSpec) (useCF : Bool) (spInit : SampleParams) :
    StreamingState :=
  { streaming := true, metric := m, yTrue := [], yPred := [], sF := [],
    cF := if useCF then some [] else none,
    sP := match spInit with | none => .noneSP | some d => .initDict d,
    overallCache := none, byGroupCache := none,
    sfNames := none, cfNames := none }

/-- Clear both result caches and report success — the final two statements
of a successful `add_data`. -/
def resetCaches (st : StreamingState) : StreamingState × Option Err :=
  ({ st with overallCache := none, byGroupCache := none }, none)

/-- The sample-params tail of `add_data` (from `if sample_params is not
None:` onward), reached after `y_true`/`y_pred`/`sensitive_features` (and
any control features) have already been appended. -/
def addDataSampleParams (st : StreamingState) (yt : List ℚ)
    (sp : SampleParams) : StreamingState × Option Err :=
  match sp with
  | some d =>
    match checkConsistentLength
        (some yt.length :: d.map (fun kv => some kv.2.length)) with
    | .error e => (st, some e)
    | .ok _ =>
      match st.sP with
      | .noneSP => resetCaches { st with sP := .batches [d] }
      | .batches ds => resetCaches { st with sP := .batches (ds ++ [d]) }
      | .initDict _ => (st, some .sampleParamsAlreadySet)
  | none =>
    match st.sP with
    | .batches _ => (st, some .sampleParamsExpected)
    | _ => resetCaches st

/-- `MetricFrame.add_data`.  A Python `raise` part-way through the method
leaves the mutations already performed in place, so the result is the
state at the point of the raise paired with the error.  Note the ordering
taken from the source: the mutual length check of
`y_true`/`y_pred`/`sensitive_features` is the only validation preceding
the first three appends; the control-feature check-and-append (or the
`_CF_BAD_STATE_ERR` raise) and all sample-param handling come after. -/
def addData (st : StreamingState) (yt yp : List ℚ) (sf : Batch FeatureElem)
    (cf : Batch FeatureElem) (sp : SampleParams) :
    StreamingState × Option Err :=
  if !st.streaming then (st, some .notStreaming)
  else
    match checkConsistentLength [some yt.length, some yp.length, sf.pyLen] with
    | .error e => (st, some e)
    | .ok _ =>
      let st1 := { st with yTrue := st.yTrue ++ [yt],
                           yPred := st.yPred ++ [yp],
                           sF := st.sF ++ [sf] }
      match st.cF with
      | some buf =>
        (match checkConsistentLength [some yt.length, cf.pyLen] with
         | .error e => (st1, some e)
         | .ok _ =>
            addDataSampleParams { st1 with cF := some (buf ++ [cf]) } yt sp)
      | none =>
        match cf with
        | .pynone => addDataSampleParams st1 yt sp
        | _ => (st1, some .cfBadState)

/-- `_concat_batches` applied to a buffer of 1-d arrays
(the `np.ndarray` branch). -/
def concatArrays (bs : List (List α)) : Except Err (List α) :=
  match concatBatches (bs.map Batch.arr) with
  | .ok (.arr xs) => .ok xs
  | .ok _ => .error .cantConcatenate   -- unreachable: inputs are all arrays
  | .error e => .error e

/-- `MetricFrame._compute_streaming_metric`: concatenate every buffer
(`y_true`, `y_pred`, sensitive features, control features unless the
buffer is `None`/empty, per-batch sample params unless `self._s_p` is a
metric-wide dict or `None`) and run `_compute_metric` once on the
result. -/
def computeStreamingMetric (st : StreamingState) : Except Err ComputedData := do
  let yt ← concatArrays st.yTrue
  let yp ← concatArrays st.yPred
  let sf ← concatBatches st.sF
  let cf ← (match st.cF with
    | none => .ok Batch.pynone
    | some [] => .ok Batch.pynone      -- `if self._c_f` is false on []
    | some buf => concatBatches buf)
  let sp ← (match st.sP with
    | .noneSP => .ok (none : SampleParams)
    | .initDict d => .ok (some d)
    | .batches ds =>
      match concatBatches (ds.map Batch.dict) with
      | .ok (.dict es) => .ok (some es)
      | .ok _ => .error .cantConcatenate   -- unreachable: inputs are all dicts
      | .error e => .error e)
  computeMetric st.metric yt yp sf cf sp

/-- Store the results of a `_compute_metric` run on the frame
(`_overall`, `_by_group`, `_sf_names`, `_cf_names`). -/
def applyCompute (st : StreamingState) (cd : ComputedData) : StreamingState :=
  { st with overallCache := some cd.overall, byGroupCache := some cd.byGroup,
            sfNames := some cd.sfNames, cfNames := cd.cfNames }

/-- What the `overall` property hands back to the caller, after the
result-shape collapse for a bare-callable metric. -/
inductive OverallValue where
  | scalar (v : ℚ)                                   -- callable, no control
  | col (vs : List (List FeatureElem × Option ℚ))    -- callable, control
  | series (vs : List (String × ℚ))                  -- dict, no control
  | table (t : MetricTable)                          -- dict, control
  | shapeError                                       -- unreachable shape mix
  deriving DecidableEq

/-- Truthiness of `self.control_levels` (`None` and `[]` are falsy). -/
def cfTruthy : Option (List String) → Bool
  | none => false
  | some l => !l.isEmpty

/-- The result-shaping tail of the `overall` property: for a bare
callable, `iloc[:, 0]` of the stored DataFrame when control features are
present, `iloc[0]` of the stored Series otherwise; the stored object
unchanged for a dict metric. -/
def overallView (m : MetricSpec) (o : OverallStore)
    (cfNames : Option (List String)) : OverallValue :=
  if m.isSingle then
    if cfTruthy cfNames then
      match o with
      | .table t => .col (t.rowIndex.zip ((t.columns.headD ("", [])).2))
      | .series _ => .shapeError
    else
      match o with
      | .series (v :: _) => .scalar v.2
      | _ => .shapeError
  else
    match o with
    | .series vs => .series vs
    | .table t => .table t

/-- The `overall` property: serve the cache if present, otherwise run
`_compute_streaming_metric` and cache.  The third component counts the
metric-function invocations made by this read (0 on a cache hit). -/
def readOverall (st : StreamingState) :
    Except Err (OverallValue × StreamingState × ℕ) :=
  match st.overallCache with
  | some o => .ok (overallView st.metric o st.cfNames, st, 0)
  | none =>
    match computeStreamingMetric st with
    | .error e => .error e
    | .ok cd =>
      .ok (overallView st.metric cd.overall cd.cfNames, applyCompute st cd, cd.calls)

/-- The `control_levels` property, with a flag recording whether the read
triggered a recomputation (it keys off `self._overall is None`). -/
def readControlLevels (st : StreamingState) :
    Except Err (Option (List String) × StreamingState × Bool) :=
  match st.overallCache with
  | some _ => .ok (st.cfNames, st, false)
  | none =>
    match computeStreamingMetric st with
    | .error e => .error e
    | .ok cd => .ok (cd.cfNames, applyCompute st cd, true)

/-- The `sensitive_levels` property, with the same recomputation flag (it
keys off `self._sf_names is None`). -/
def readSensitiveLevels (st : StreamingState) :
    Except Err (List String × StreamingState × Bool) :=
  match st.sfNames with
  | some l => .ok (l, st, false)
  | none =>
    match computeStreamingMetric st with
    | .error e => .error e
    | .ok cd => .ok (cd.sfNames, applyCompute st cd, true)

/-- `MetricFrame.__init__` with `streaming=False`: reject empty inputs,
check `y_true`/`y_pred` lengths, and compute at once. -/
def Batch.pyEmpty : Batch α → Bool
  | .pynone => true                    -- `arg is None`
  | .arr xs => xs.isEmpty
  | .dict es => es.isEmpty

/-- Non-streaming construction: the eagerly computed results. -/
def mkNonStreaming (m : MetricSpec) (yt yp : List ℚ)
    (sf : Batch FeatureElem) (cf : Batch FeatureElem) (sp : SampleParams) :
    Except Err ComputedData :=
  if yt.isEmpty || yp.isEmpty || sf.pyEmpty then .error .badInit
  else do
    checkConsistentLength [some yt.length, some yp.length]
    computeMetric m yt yp sf cf sp

/-! ## Aggregation layer -/

/-- `max` of a list of rationals (`none` on the empty list, as pandas
`max` of an all-NaN column is NaN). -/
def listMaxQ : List ℚ → Option ℚ
  | [] => none
  | x :: xs => some (xs.foldl max x)

/-- `min` of a list of rationals. -/
def listMinQ : List ℚ → Option ℚ
  | [] => none
  | x :: xs => some (xs.foldl min x)

/-- pandas `Series.max()`: NaN cells are skipped. -/
def seriesMax (cs : List (Option ℚ)) : Option ℚ := listMaxQ (cs.filterMap id)

/-- pandas `Series.min()`: NaN cells are skipped. -/
def seriesMin (cs : List (Option ℚ)) : Option ℚ := listMinQ (cs.filterMap id)

/-- The control-feature strata of a row index: the distinct
length-`nCtrl` prefixes of the row keys (the control levels are the
leading index levels, since `_compute_by_group` prepends them). -/
def strata (rowIndex : List (List FeatureElem)) (nCtrl : ℕ) :
    List (List FeatureElem) :=
  firstSeen (rowIndex.map (List.take nCtrl))

/-- The cells of one column lying in one control stratum. -/
def stratumCells (rowIndex : List (List FeatureElem)) (cells : List (Option ℚ))
    (nCtrl : ℕ) (key : List FeatureElem) : List (Option ℚ) :=
  ((rowIndex.zip cells).filter (fun rc => rc.1.take nCtrl = key)).map (·.2)

/-- A `group_max`/`group_min`-shaped result: a Series over function names
when there are no control features, a table over the control strata
otherwise. -/
inductive GroupResult where
  | series (vs : List (String × Option ℚ))
  | table (t : MetricTable)
  deriving DecidableEq

/-- Look one cell up in a table: the column by name, the row by key. -/
def MetricTable.cellAt (t : MetricTable) (col : String)
    (key : List FeatureElem) : Option ℚ :=
  (alookup col t.columns).bind (fun cells =>
    (((t.rowIndex.zip cells).find? (fun rc => rc.1 = key)).map Prod.snd).join)

/-- Look one cell up in a grouped result (the key is ignored by the
Series shape, which pandas broadcasts over all rows). -/
def GroupResult.atCell : GroupResult → String → List FeatureElem → Option ℚ
  | .series vs, col, _ => (alookup col vs).join
  | .table t, col, key => t.cellAt col key

/-- `MetricFrame.group_max` on the `_by_group` table: per function,
the max over all rows when `control_levels` is falsy
(`self._by_group[m].max()`), else `groupby(level=control_levels).max()`.
`nCtrl` is the number of control levels (the leading index levels);
groupby key order here is first-seen rather than pandas' sorted order,
which moves no claim stated per stratum. -/
def groupMaxRaw (t : MetricTable) : ℕ → GroupResult
  | 0 => .series (t.columns.map (fun c => (c.1, seriesMax c.2)))
  | nCtrl@(_ + 1) =>
    .table { rowIndex := strata t.rowIndex nCtrl
             columns := t.columns.map (fun c =>
               (c.1, (strata t.rowIndex nCtrl).map (fun k =>
                 seriesMax (stratumCells t.rowIndex c.2 nCtrl k)))) }

/-- `MetricFrame.group_min`, dually. -/
def groupMinRaw (t : MetricTable) : ℕ → GroupResult
  | 0 => .series (t.columns.map (fun c => (c.1, seriesMin c.2)))
  | nCtrl@(_ + 1) =>
    .table { rowIndex := strata t.rowIndex nCtrl
             columns := t.columns.map (fun c =>
               (c.1, (strata t.rowIndex nCtrl).map (fun k =>
                 seriesMin (stratumCells t.rowIndex c.2 nCtrl k)))) }

/-- pandas cell subtraction: NaN propagates. -/
def cellSub : Option ℚ → Option ℚ → Option ℚ
  | some a, some b => some (a - b)
  | _, _ => none

/-- pandas cell division: NaN propagates. -/
def cellDiv : Option ℚ → Option ℚ → Option ℚ
  | some a, some b => some (a / b)
  | _, _ => none

/-- pandas elementwise combination of two grouped results, aligned by
function name and control-stratum key. -/
def GroupResult.zipCells (f : Option ℚ → Option ℚ → Option ℚ) :
    GroupResult → GroupResult → GroupResult
  | .series vs, g => .series (vs.map (fun nv => (nv.1, f nv.2 (g.atCell nv.1 []))))
  | .table t, g =>
    .table { rowIndex := t.rowIndex
             columns := t.columns.map (fun c =>
               (c.1, (t.rowIndex.zip c.2).map (fun rc =>
                 f rc.2 (g.atCell c.1 rc.1)))) }

/-- The `method == 'between_groups'` branch of `MetricFrame.difference`:
`(self.by_group - self.group_min()).abs().max(level=self.control_levels)`.
The subtrahend broadcasts against the control levels (it is a scalar per
function when there are none), `.abs()` maps over cells, and
`.max(level=...)` is the same grouped max as `group_max`. -/
def differenceBetweenGroups (t : MetricTable) (nCtrl : ℕ) : GroupResult :=
  let subtrahend := groupMinRaw t nCtrl
  let diffTable : MetricTable :=
    { rowIndex := t.rowIndex
      columns := t.columns.map (fun c =>
        (c.1, (t.rowIndex.zip c.2).map (fun rc =>
          Option.map abs (cellSub rc.2 (subtrahend.atCell c.1 (rc.1.take nCtrl)))))) }
  groupMaxRaw diffTable nCtrl

/-- The `method == 'between_groups'` branch of `MetricFrame.ratio`:
`self.group_min() / self.group_max()`, pandas-aligned elementwise. -/
def ratioBetweenGroups (t : MetricTable) (nCtrl : ℕ) : GroupResult :=
  (groupMinRaw t nCtrl).zipCells cellDiv (groupMaxRaw t nCtrl)

/-! ## Decidability of result comparisons -/

instance {ε α : Type} [DecidableEq ε] [DecidableEq α] :
    DecidableEq (Except ε α) := fun a b =>
  match a, b with
  | .error e, .error e' =>
    if h : e = e' then isTrue (by rw [h])
    else isFalse (fun hh => h (Except.error.inj hh))
  | .ok x, .ok y =>
    if h : x = y then isTrue (by rw [h])
    else isFalse (fun hh => h (Except.ok.inj hh))
  | .error _, .ok _ => isFalse (fun hh => Except.noConfusion hh)
  | .ok _, .error _ => isFalse (fun hh => Except.noConfusion hh)

/-! ## Concrete metric functions used in witnesses -/

/-- Accuracy, as a caller-supplied metric function. -/
def accuracy : List ℚ → List ℚ → List (String × List ℚ) → ℚ :=
  fun yt yp _ => (((yt.zip yp).filter (fun p => p.1 = p.2)).length : ℚ) / (yt.length : ℚ)

/-- A weighted sum, exercising the sample-params slicing. -/
def weightedSum : List ℚ → List ℚ → List (String × List ℚ) → ℚ :=
  fun yt _ sp => (List.zipWith (· * ·) yt (alookupD "w" sp)).sum

/-! ## Claim C6 — flat feature lists and `NonScalarFeatureList` -/

/-- C6 (counterexample): a flat feature list containing a non-scalar
element is *not* always rejected — only the first element is inspected by
`np.isscalar`, so `["a", ["b","c"]]` is accepted as a feature column and
no `NonScalarFeatureList` error is raised. -/
theorem processFeatures_later_nonscalar_accepted :
    processFeatures "sensitive_feature_"
        (.arr [.scalar "a", .nonscalar ["b", "c"]]) 2 =
      .ok [{ name := "sensitive_feature_0",
             column := [.scalar "a", .nonscalar ["b", "c"]] }] ∧
    processFeatures "sensitive_feature_"
        (.arr [.scalar "a", .nonscalar ["b", "c"]]) 2 ≠
      .error .nonScalarFeatureList := by
  constructor
  · rfl
  · decide

/-- C6 (amended): the flat-list branch of `_process_features` raises
`NonScalarFeatureList` exactly when the *first* element of the list is
non-scalar; later elements are never inspected. -/
theorem processFeatures_first_nonscalar_iff (baseName : String)
    (e : FeatureElem) (rest : List FeatureElem) (n : ℕ) :
    processFeatures baseName (.arr (e :: rest)) n =
        .error .nonScalarFeatureList ↔ ∃ vs, e = .nonscalar vs := by
  cases e with
  | scalar v =>
    constructor
    · intro h
      simp only [processFeatures, checkConsistentLength] at h
      split at h <;> simp [bind, Except.bind] at h
    · rintro ⟨vs, h⟩
      cases h
  | nonscalar vs =>
    simp [processFeatures]

/-! ## Claim C9 — dict concatenation follows the first batch's keys -/

/-- An `isSome` association lookup is a `some` of its defaulted value. -/
theorem alookup_isSome_eq {α : Type} (k : String) (l : List (String × List α))
    (h : (alookup k l).isSome) : alookup k l = some (alookupD k l) := by
  unfold alookupD
  cases hl : alookup k l with
  | none => rw [hl] at h; cases h
  | some v => simp

/-- `lookupAll` over dict batches that all contain the key. -/
theorem lookupAll_eq_some {α : Type} (k : String)
    (ds : List (List (String × List α)))
    (h : ∀ d ∈ ds, (alookup k d).isSome) :
    lookupAll k (ds.map Batch.dict) =
      some (ds.map (fun d => alookupD k d)) := by
  induction ds with
  | nil => rfl
  | cons d ds ih =>
    simp only [List.map_cons, lookupAll]
    rw [alookup_isSome_eq k d (h d (by simp)),
      ih (fun d' hd' => h d' (by simp [hd']))]
    rfl

/-- `concatDictEntries` over dict batches containing all first-batch
keys. -/
theorem concatDictEntries_eq_some {α : Type} (d0 : List (String × List α))
    (ds : List (List (String × List α)))
    (h : ∀ d ∈ ds, ∀ kv ∈ d0, (alookup kv.1 d).isSome) :
    concatDictEntries (ds.map Batch.dict) d0 =
      some (d0.map (fun kv =>
        (kv.1, kv.2 ++ (ds.map (fun d => alookupD kv.1 d)).flatten))) := by
  induction d0 with
  | nil => rfl
  | cons kv es ih =>
    simp only [concatDictEntries]
    rw [lookupAll_eq_some kv.1 ds (fun d hd => h d hd kv (by simp)),
      ih (fun d hd kv' hkv' => h d hd kv' (by simp [hkv']))]
    rfl

/-- Shared helper: `_concat_batches` on a non-empty list of dicts whose
tails all contain the head dict's keys concatenates key-by-key over the
head dict's entries. -/
theorem concatBatches_dict {α : Type} (d0 : List (String × List α))
    (ds : List (List (String × List α)))
    (h : ∀ d ∈ ds, ∀ kv ∈ d0, (alookup kv.1 d).isSome) :
    concatBatches (Batch.dict d0 :: ds.map Batch.dict) =
      .ok (.dict (d0.map (fun kv =>
        (kv.1, kv.2 ++ (ds.map (fun d => alookupD kv.1 d)).flatten)))) := by
  have htype : (ds.map Batch.dict).all (Batch.sameType (Batch.dict d0)) = true := by
    rw [List.all_eq_true]
    intro b hb
    simp only [List.mem_map] at hb
    obtain ⟨d, _, rfl⟩ := hb
    rfl
  simp only [concatBatches, htype, Bool.not_true, Bool.false_eq_true, if_false]
  rw [concatDictEntries_eq_some d0 ds h]

/-- C9: concatenating dict-shaped batches uses only the key set of the
first batch: every first-batch key gets the concatenation of the per-key
values of all batches (`_concat_batches` recursing into the values), and
a key appearing only in a later batch does not raise — it is silently
absent from the result, whose keys are exactly the first batch's. -/
theorem concat_dict_first_batch_keys {α : Type} (d0 : List (String × List α))
    (ds : List (List (String × List α)))
    (h : ∀ d ∈ ds, ∀ kv ∈ d0, (alookup kv.1 d).isSome) :
    concatBatches (Batch.dict d0 :: ds.map Batch.dict) =
      .ok (.dict (d0.map (fun kv =>
        (kv.1, kv.2 ++ (ds.map (fun d => alookupD kv.1 d)).flatten)))) ∧
    (d0.map (fun kv =>
        (kv.1, kv.2 ++ (ds.map (fun d => alookupD kv.1 d)).flatten))).map
      Prod.fst = d0.map Prod.fst := by
  refine ⟨concatBatches_dict d0 ds h, ?_⟩
  simp

/-- C9 witness: two batches; the second carries the extra key `"b"`,
which is silently dropped, while key `"a"` is concatenated. -/
theorem concat_dict_first_batch_keys_witness :
    concatBatches (Batch.dict [("a", [(1 : ℚ), 2])] ::
        [[("a", [(3 : ℚ)]), ("b", [9])]].map Batch.dict) =
      .ok (.dict [("a", [(1 : ℚ), 2, 3])]) := by
  have := concat_dict_first_batch_keys [("a", [(1 : ℚ), 2])]
    [[("a", [(3 : ℚ)]), ("b", [9])]] (by decide)
  simpa using this.1

/-! ## Claim C5 — failed `add_data` and partial mutation -/

/-- C5 (counterexample): an `add_data` call that fails the
control-feature check (`_CF_BAD_STATE_ERR`) has already appended to the
`y_true` buffer — the failed call does mutate prior state. -/
theorem add_data_cf_error_mutates :
    (addData (mkStreaming (.single accuracy) false none) [0] [0]
        (.arr [.scalar "a"]) (.arr [.scalar "x"]) none).2 =
      some Err.cfBadState ∧
    (addData (mkStreaming (.single accuracy) false none) [0] [0]
        (.arr [.scalar "a"]) (.arr [.scalar "x"]) none).1.yTrue = [[0]] ∧
    (mkStreaming (.single accuracy) false none).yTrue = [] := by
  refine ⟨by decide, by decide, by decide⟩

/-- C5 (amended): only the leading mutual length check of
`y_true`/`y_pred`/`sensitive_features` precedes the appends, so an
`add_data` failing *that* check leaves the frame exactly unchanged;
later validation failures (control features, sample params) occur after
`y_true`, `y_pred` and the sensitive features have been appended. -/
theorem add_data_early_length_error_no_mutation (st : StreamingState)
    (yt yp : List ℚ) (sf cf : Batch FeatureElem) (sp : SampleParams)
    (hs : st.streaming = true)
    (h : checkConsistentLength [some yt.length, some yp.length, sf.pyLen] =
      .error .inconsistentLength) :
    addData st yt yp sf cf sp = (st, some .inconsistentLength) := by
  simp [addData, hs, h]

/-- C5 witness: a batch with `y_true` of length 1 and `y_pred` of
length 2 fails the leading length check and changes nothing. -/
theorem add_data_early_length_error_no_mutation_witness :
    addData (mkStreaming (.single accuracy) false none) [0] [0, 1]
        (.arr [.scalar "a"]) .pynone none =
      (mkStreaming (.single accuracy) false none,
        some Err.inconsistentLength) :=
  add_data_early_length_error_no_mutation _ _ _ _ _ _ rfl (by decide)

/-! ## Claim C7 — control features on every batch -/

/-- C7 (amended, the direction that holds): a batch supplying control
features to a frame initialized with `control_features=None` raises
`_CF_BAD_STATE_ERR`. -/
theorem cf_on_cfNone_frame_raises (st : StreamingState) (yt yp : List ℚ)
    (sf : Batch FeatureElem) (cf : Batch FeatureElem) (sp : SampleParams)
    (hs : st.streaming = true) (hcf : st.cF = none) (hne : cf ≠ .pynone)
    (hlen : checkConsistentLength [some yt.length, some yp.length, sf.pyLen] =
      .ok ()) :
    (addData st yt yp sf cf sp).2 = some .cfBadState := by
  cases cf with
  | pynone => exact absurd rfl hne
  | arr xs => simp [addData, hs, hlen, hcf]
  | dict es => simp [addData, hs, hlen, hcf]

/-- C7 witness for the holding direction. -/
theorem cf_on_cfNone_frame_raises_witness :
    (addData (mkStreaming (.single accuracy) false none) [0] [0]
        (.arr [.scalar "a"]) (.arr [.scalar "x"]) none).2 =
      some .cfBadState :=
  cf_on_cfNone_frame_raises _ _ _ _ _ _ rfl rfl (by decide) (by decide)

/-- C7 (counterexample): a batch *omitting* control features from a frame
initialized to use them (`control_features=[]`) does not raise — sklearn's
`check_consistent_length` skips `None`, so `None` is appended to the
control buffer and the call succeeds. -/
theorem omitted_cf_batch_accepted :
    (addData (mkStreaming (.single accuracy) true none) [0] [0]
        (.arr [.scalar "a"]) .pynone none).2 = none ∧
    (addData (mkStreaming (.single accuracy) true none) [0] [0]
        (.arr [.scalar "a"]) .pynone none).1.cF = some [Batch.pynone] := by
  refine ⟨by decide, by decide⟩

/-! ## Claims C8 and C10 — cache behavior of the readers -/

/-- A metric function returning a constant, for small frame examples. -/
def zeroMetric : List ℚ → List ℚ → List (String × List ℚ) → ℚ := fun _ _ _ => 0

/-- A one-batch streaming frame that has not been read yet. -/
def demoFrame : StreamingState :=
  (addData (mkStreaming (.single zeroMetric) false none) [0] [0]
    (.arr [.scalar "a"]) .pynone none).1

/-- The same frame after its first `overall` read (caches populated). -/
def demoComputed : StreamingState :=
  { streaming := true, metric := .single zeroMetric,
    yTrue := [[0]], yPred := [[0]], sF := [.arr [.scalar "a"]],
    cF := none, sP := .noneSP,
    overallCache := some (.series [("metric", 0)]),
    byGroupCache := some ⟨[[.scalar "a"]], [("metric", [some 0])]⟩,
    sfNames := some ["sensitive_feature_0"], cfNames := none }

/-- C8: reading `overall` twice without an intervening `add_data` returns
the identical value: the second read is served from the `_overall` cache,
performs zero metric-function invocations, and leaves the state as it
was. -/
theorem overall_second_read_cached (st : StreamingState) (v : OverallValue)
    (st' : StreamingState) (n : ℕ)
    (h : readOverall st = .ok (v, st', n)) :
    readOverall st' = .ok (v, st', 0) := by
  unfold readOverall at h
  cases hoc : st.overallCache with
  | some o =>
    rw [hoc] at h
    obtain ⟨hv, hst', hn⟩ :
        overallView st.metric o st.cfNames = v ∧ st = st' ∧ 0 = n := by
      simpa using h
    subst hst'
    simp [readOverall, hoc, hv]
  | none =>
    rw [hoc] at h
    cases hcd : computeStreamingMetric st with
    | error e => rw [hcd] at h; cases h
    | ok cd =>
      rw [hcd] at h
      obtain ⟨hv, hst', hn⟩ :
          overallView st.metric cd.overall cd.cfNames = v ∧
            applyCompute st cd = st' ∧ cd.calls = n := by
        simpa using h
      subst hst'
      simp [readOverall, applyCompute, hv]

/-- C8 witness: a concrete one-batch frame; the first read computes
(2 metric calls) and the second is served from the cache with 0 calls. -/
theorem overall_second_read_cached_witness :
    readOverall demoComputed = .ok (.scalar 0, demoComputed, 0) :=
  overall_second_read_cached demoFrame (.scalar 0) demoComputed 2 rfl

/-- The sample-params tail of a *successful* `add_data` only appends to
`_s_p` and clears the two result caches. -/
theorem addDataSampleParams_success (st : StreamingState) (yt : List ℚ)
    (sp : SampleParams) (h : (addDataSampleParams st yt sp).2 = none) :
    (addDataSampleParams st yt sp).1.sfNames = st.sfNames ∧
    (addDataSampleParams st yt sp).1.cfNames = st.cfNames ∧
    (addDataSampleParams st yt sp).1.overallCache = none ∧
    (addDataSampleParams st yt sp).1.byGroupCache = none ∧
    (addDataSampleParams st yt sp).1.metric = st.metric := by
  cases sp with
  | none =>
    cases hsp : st.sP with
    | noneSP => simp [addDataSampleParams, hsp, resetCaches]
    | initDict d => simp [addDataSampleParams, hsp, resetCaches]
    | batches ds => exfalso; simp [addDataSampleParams, hsp] at h
  | some d =>
    cases hlen : checkConsistentLength
        (some yt.length :: d.map (fun kv => some kv.2.length)) with
    | error e => exfalso; simp [addDataSampleParams, hlen] at h
    | ok u =>
      cases hsp : st.sP with
      | noneSP => simp [addDataSampleParams, hsp, hlen, resetCaches]
      | initDict d' => exfalso; simp [addDataSampleParams, hsp, hlen] at h
      | batches ds => simp [addDataSampleParams, hsp, hlen, resetCaches]

/-- C10: a successful `add_data` resets only the `_overall` and
`_by_group` caches and leaves the cached feature-name lists untouched;
consequently `sensitive_levels` (keyed on `_sf_names`) serves the old
name list without recomputing, while `control_levels` (keyed on
`_overall is None`) triggers a full recomputation. -/
theorem addData_invalidates_only_result_caches (st : StreamingState)
    (yt yp : List ℚ) (sf cf : Batch FeatureElem) (sp : SampleParams)
    (h : (addData st yt yp sf cf sp).2 = none) :
    (addData st yt yp sf cf sp).1.sfNames = st.sfNames ∧
    (addData st yt yp sf cf sp).1.cfNames = st.cfNames ∧
    (addData st yt yp sf cf sp).1.overallCache = none ∧
    (addData st yt yp sf cf sp).1.byGroupCache = none ∧
    (∀ l, st.sfNames = some l →
      readSensitiveLevels (addData st yt yp sf cf sp).1 =
        .ok (l, (addData st yt yp sf cf sp).1, false)) ∧
    (∀ cd, computeStreamingMetric (addData st yt yp sf cf sp).1 = .ok cd →
      readControlLevels (addData st yt yp sf cf sp).1 =
        .ok (cd.cfNames, applyCompute (addData st yt yp sf cf sp).1 cd, true)) := by
  have hcore : (addData st yt yp sf cf sp).1.sfNames = st.sfNames ∧
      (addData st yt yp sf cf sp).1.cfNames = st.cfNames ∧
      (addData st yt yp sf cf sp).1.overallCache = none ∧
      (addData st yt yp sf cf sp).1.byGroupCache = none := by
    cases hst : st.streaming with
    | false => exfalso; simp [addData, hst] at h
    | true =>
      cases hlen : checkConsistentLength
          [some yt.length, some yp.length, sf.pyLen] with
      | error e => exfalso; simp [addData, hst, hlen] at h
      | ok u =>
        cases u
        cases hcf : st.cF with
        | some buf =>
          cases hclen : checkConsistentLength [some yt.length, cf.pyLen] with
          | error e => exfalso; simp [addData, hst, hlen, hcf, hclen] at h
          | ok u' =>
            cases u'
            simp only [addData, hst, hlen, hcf, hclen, Bool.not_true,
              Bool.false_eq_true, if_false] at h ⊢
            have hres := addDataSampleParams_success _ yt sp h
            exact ⟨by simpa using hres.1, by simpa using hres.2.1,
              hres.2.2.1, hres.2.2.2.1⟩
        | none =>
          cases cf with
          | pynone =>
            simp only [addData, hst, hlen, hcf, Bool.not_true,
              Bool.false_eq_true, if_false] at h ⊢
            have hres := addDataSampleParams_success _ yt sp h
            exact ⟨by simpa using hres.1, by simpa using hres.2.1,
              hres.2.2.1, hres.2.2.2.1⟩
          | arr xs => exfalso; simp [addData, hst, hlen, hcf] at h
          | dict es => exfalso; simp [addData, hst, hlen, hcf] at h
  refine ⟨hcore.1, hcore.2.1, hcore.2.2.1, hcore.2.2.2, ?_, ?_⟩
  · intro l hl
    have : (addData st yt yp sf cf sp).1.sfNames = some l := by
      rw [hcore.1, hl]
    simp [readSensitiveLevels, this]
  · intro cd hcd
    simp [readControlLevels, hcore.2.2.1, hcd]

/-- C10 witness: adding a batch to a computed frame, `sensitive_levels`
serves the cached names without recomputation. -/
theorem addData_invalidates_only_result_caches_witness :
    readSensitiveLevels
        (addData demoComputed [2] [2] (.arr [.scalar "b"]) .pynone none).1 =
      .ok (["sensitive_feature_0"],
        (addData demoComputed [2] [2] (.arr [.scalar "b"]) .pynone none).1,
        false) :=
  (addData_invalidates_only_result_caches demoComputed [2] [2]
      (.arr [.scalar "b"]) .pynone none (by decide)).2.2.2.2.1
    ["sensitive_feature_0"] rfl

/-! ## Claim C4 — zero-sample subgroup combinations -/

/-- Association lookup over a keyed `map` is a `find?`. -/
theorem alookup_map_key {γ β : Type} (n : String) (l : List γ)
    (kf : γ → String) (F : γ → β) :
    alookup n (l.map (fun c => (kf c, F c))) =
      (l.find? (fun c => kf c = n)).map F := by
  induction l with
  | nil => rfl
  | cons a l ih =>
    simp only [List.map_cons, alookup, List.find?]
    by_cases hk : kf a = n
    · simp [hk]
    · simp [hk, ih]

/-- `find?` by key over a list zipped with its own image, projected to
the image side. -/
theorem zip_map_find?_snd {α β : Type} [DecidableEq α] (l : List α)
    (g : α → β) (k : α) :
    (((l.zip (l.map g)).find? (fun rc => rc.1 = k)).map Prod.snd) =
      (l.find? (fun x => x = k)).map g := by
  induction l with
  | nil => rfl
  | cons a l ih =>
    simp only [List.map_cons, List.zip_cons_cons, List.find?]
    by_cases hak : a = k
    · simp [hak]
    · simp only [decide_eq_false hak]
      exact ih

/-- Cells sent to `none` by a predicate do not contribute to
`filterMap id`. -/
theorem filterMap_map_filter {α β : Type} (l : List α) (P : α → Bool)
    (g : α → Option β) (hg : ∀ x, P x = false → g x = none) :
    (l.map g).filterMap id = ((l.filter P).map g).filterMap id := by
  induction l with
  | nil => rfl
  | cons a l ih =>
    cases hPa : P a with
    | false => simp [List.filter_cons, hPa, hg a hPa, ih]
    | true =>
      cases hga : g a with
      | none => simp [List.filter_cons, hPa, hga, ih]
      | some b => simp [List.filter_cons, hPa, hga, ih]

/-- `seriesMax` ignores rows mapped to `none`. -/
theorem seriesMax_filter {α : Type} (l : List α) (P : α → Bool)
    (g : α → Option ℚ) (hg : ∀ x, P x = false → g x = none) :
    seriesMax (l.map g) = seriesMax ((l.filter P).map g) := by
  unfold seriesMax
  rw [filterMap_map_filter l P g hg]

/-- `seriesMin` ignores rows mapped to `none`. -/
theorem seriesMin_filter {α : Type} (l : List α) (P : α → Bool)
    (g : α → Option ℚ) (hg : ∀ x, P x = false → g x = none) :
    seriesMin (l.map g) = seriesMin ((l.filter P).map g) := by
  unfold seriesMin
  rw [filterMap_map_filter l P g hg]

/-- Helper: the by-group computation restricted to the row combinations
whose masks select at least one sample. -/
def restrictNonempty (funcs : List FunctionContainer) (yt yp : List ℚ)
    (rows : List GroupFeature) : MetricTable :=
  let nonempty := (crossProduct (rows.map GroupFeature.classes)).filter
    (fun t => maskCount (maskFromTuple rows t) > 0)
  { rowIndex := nonempty
    columns := funcs.map (fun fc =>
      (fc.name_, nonempty.map (fun t =>
        let mask := maskFromTuple rows t
        if maskCount mask > 0 then some (fc.evaluate yt yp mask) else none))) }

/-! ## Claim C3 — `ratio('between_groups')` is exactly `group_min() / group_max()` -/

/-- A list zipped with its own image is a single `map`. -/
theorem zip_self_map {α β : Type} (l : List α) (h : α → β) :
    l.zip (l.map h) = l.map (fun x => (x, h x)) := by
  induction l with
  | nil => rfl
  | cons a l ih => simp [ih]

/-- C3: for every function name and every control-stratum key, the
`between_groups` ratio cell is exactly the `group_min` cell divided by
the `group_max` cell (per function, per stratum; `none`/NaN propagates
through the division on both sides alike). -/
theorem ratio_between_groups_eq_min_div_max (t : MetricTable) (nCtrl : ℕ)
    (n : String) (k : List FeatureElem) :
    (ratioBetweenGroups t nCtrl).atCell n k =
      cellDiv ((groupMinRaw t nCtrl).atCell n k)
        ((groupMaxRaw t nCtrl).atCell n k) := by
  cases nCtrl with
  | zero =>
    simp only [ratioBetweenGroups, groupMinRaw, groupMaxRaw,
      GroupResult.zipCells, GroupResult.atCell, alookup_map_key,
      List.find?_map, Function.comp_def]
    cases hf : t.columns.find? (fun c => c.1 = n) with
    | none => simp [hf, cellDiv]
    | some c0 =>
      have hc0 : c0.1 = n := by
        have := List.find?_some hf
        simpa using this
      simp [hf, hc0]
  | succ m =>
    simp only [ratioBetweenGroups, groupMinRaw, groupMaxRaw,
      GroupResult.zipCells, GroupResult.atCell, MetricTable.cellAt,
      alookup_map_key, List.find?_map, zip_self_map, Function.comp_def]
    cases hf : t.columns.find? (fun c => c.1 = n) with
    | none => simp [hf, cellDiv]
    | some c0 =>
      have hc0 : c0.1 = n := by
        have := List.find?_some hf
        simpa using this
      simp only [hf, hc0, Option.map_some', Option.some_bind]
      cases hk : (strata t.rowIndex (m + 1)).find? (fun x => x = k) with
      | none =>
        simp [hk, List.find?_map, zip_self_map, Function.comp_def, cellDiv]
      | some kk =>
        have hkk : kk = k := by
          have := List.find?_some hk
          simpa using this
        simp [hk, hkk, MetricTable.cellAt, alookup_map_key, hf, hc0,
          zip_self_map, List.find?_map, Function.comp_def]

/-! ## Claim C2 — `difference('between_groups')` equals `group_max − group_min` -/

/-- A left `min` fold is below its initial value. -/
theorem foldl_min_le_init (xs : List ℚ) (x : ℚ) : xs.foldl min x ≤ x := by
  induction xs generalizing x with
  | nil => exact le_refl x
  | cons a l ih => exact le_trans (ih (min x a)) (min_le_left x a)

/-- A left `min` fold is below every list member. -/
theorem foldl_min_le_mem (xs : List ℚ) (x y : ℚ) (h : y ∈ xs) :
    xs.foldl min x ≤ y := by
  induction xs generalizing x with
  | nil => cases h
  | cons a l ih =>
    rcases List.mem_cons.mp h with rfl | hmem
    · exact le_trans (foldl_min_le_init l (min x y)) (min_le_right x y)
    · exact ih (min x a) hmem

/-- Subtracting a constant commutes with a left `max` fold. -/
theorem foldl_max_map_sub (xs : List ℚ) (x c : ℚ) :
    (xs.map (fun y => y - c)).foldl max (x - c) = xs.foldl max x - c := by
  induction xs generalizing x with
  | nil => rfl
  | cons a l ih =>
    simp only [List.map_cons, List.foldl_cons, max_sub_sub_right]
    exact ih (max x a)

/-- Core identity: the maximum of `|y − min|` over a non-empty list of
rationals is `max − min`. -/
theorem listMax_abs_sub_min (w : ℚ) (ws : List ℚ) :
    listMaxQ ((w :: ws).map (fun y => |y - ws.foldl min w|)) =
      some (ws.foldl max w - ws.foldl min w) := by
  have hmin : ∀ y ∈ w :: ws, ws.foldl min w ≤ y := by
    intro y hy
    rcases List.mem_cons.mp hy with rfl | hmem
    · exact foldl_min_le_init ws y
    · exact foldl_min_le_mem ws w y hmem
  have habs : (w :: ws).map (fun y => |y - ws.foldl min w|) =
      (w :: ws).map (fun y => y - ws.foldl min w) := by
    apply List.map_congr_left
    intro y hy
    exact abs_of_nonneg (sub_nonneg.mpr (hmin y hy))
  rw [habs]
  simp only [List.map_cons, listMaxQ]
  rw [foldl_max_map_sub]

/-- An all-`some` cell list is its own `filterMap` mapped back. -/
theorem all_isSome_eq_map_some (cs : List (Option ℚ))
    (h : ∀ x ∈ cs, x.isSome) : cs = (cs.filterMap id).map some := by
  induction cs with
  | nil => rfl
  | cons a cs ih =>
    cases a with
    | none => exact absurd (h none (by simp)) (by simp)
    | some w =>
      simp only [List.filterMap_cons, id, List.map_cons]
      rw [← ih (fun x hx => h x (by simp [hx]))]

/-- Option-level core identity: over an all-numeric cell list, the
column max of `|cell − column min|` is `column max − column min`
(both sides are `none` on the empty list). -/
theorem seriesMax_abs_sub_min (cs : List (Option ℚ))
    (h : ∀ x ∈ cs, x.isSome) :
    seriesMax (cs.map (fun x => Option.map abs (cellSub x (seriesMin cs)))) =
      cellSub (seriesMax cs) (seriesMin cs) := by
  rw [all_isSome_eq_map_some cs h]
  generalize cs.filterMap id = ws
  cases ws with
  | nil => rfl
  | cons w ws' =>
    have hmin : seriesMin ((w :: ws').map some) = some (ws'.foldl min w) := by
      simp [seriesMin, List.filterMap_map, listMinQ]
    have hmax : seriesMax ((w :: ws').map some) = some (ws'.foldl max w) := by
      simp [seriesMax, List.filterMap_map, listMaxQ]
    have hcells : ((w :: ws').map some).map
        (fun x => Option.map abs (cellSub x (seriesMin ((w :: ws').map some)))) =
        ((w :: ws').map (fun y => |y - ws'.foldl min w|)).map some := by
      rw [hmin, List.map_map, List.map_map]
      apply List.map_congr_left
      intro y _
      simp [cellSub]
    rw [hcells, hmin, hmax]
    have : seriesMax (((w :: ws').map (fun y => |y - ws'.foldl min w|)).map some) =
        listMaxQ ((w :: ws').map (fun y => |y - ws'.foldl min w|)) := by
      simp [seriesMax, List.filterMap_map]
    rw [this, listMax_abs_sub_min]
    simp [cellSub]

/-- Mapping a second-component function over a zip of equal-length lists
is a map over the second list. -/
theorem zip_map_snd_fun {α β γ : Type} (l : List α) (c : List β)
    (F : β → γ) (h : c.length = l.length) :
    (l.zip c).map (fun rc => F rc.2) = c.map F := by
  induction l generalizing c with
  | nil => cases c with
    | nil => rfl
    | cons b c => cases h
  | cons a l ih =>
    cases c with
    | nil => cases h
    | cons b c =>
      simp only [List.zip_cons_cons, List.map_cons]
      rw [ih c (by simpa using h)]

/-- Zipping a list against a map over its own zip re-pairs the keys. -/
theorem zip_zip_map {α β γ : Type} (l : List α) (c : List β)
    (F : α × β → γ) :
    l.zip ((l.zip c).map F) = (l.zip c).map (fun rc => (rc.1, F rc)) := by
  induction l generalizing c with
  | nil => rfl
  | cons a l ih =>
    cases c with
    | nil => rfl
    | cons b c =>
      simp only [List.zip_cons_cons, List.map_cons]
      rw [ih c]

/-- `atCell` on a grouped table whose columns are a keyed map over a
shared row list. -/
theorem atCell_table_map (rI : List (List FeatureElem))
    (cols : List (String × List (Option ℚ)))
    (g : (String × List (Option ℚ)) → List FeatureElem → Option ℚ)
    (n : String) (k : List FeatureElem) :
    (GroupResult.table { rowIndex := rI
                         columns := cols.map (fun c =>
                           (c.1, rI.map (g c))) }).atCell n k =
      (match cols.find? (fun c => c.1 = n), rI.find? (fun x => x = k) with
        | some c0, some kk => g c0 kk
        | _, _ => none) := by
  simp only [GroupResult.atCell, MetricTable.cellAt, alookup_map_key]
  cases hf : cols.find? (fun c => c.1 = n) with
  | none => simp
  | some c0 =>
    simp only [Option.map_some', Option.some_bind]
    rw [zip_self_map, List.find?_map]
    simp only [Function.comp_def]
    cases hk : rI.find? (fun x => x = k) with
    | none => simp
    | some kk => simp

/-- The per-stratum core of the `between_groups` difference: subtracting
the stratum minimum, taking absolute values and then the stratum maximum
yields stratum max minus stratum min, over all-numeric cells. -/
theorem diff_stratum_core (rI : List (List FeatureElem))
    (cs : List (Option ℚ)) (nC : ℕ) (kk : List FeatureElem)
    (sub : List FeatureElem → Option ℚ)
    (hsub : sub kk = seriesMin (stratumCells rI cs nC kk))
    (hsome : ∀ x ∈ stratumCells rI cs nC kk, Option.isSome x) :
    seriesMax (stratumCells rI
        ((rI.zip cs).map (fun rc =>
          Option.map abs (cellSub rc.2 (sub (rc.1.take nC))))) nC kk) =
      cellSub (seriesMax (stratumCells rI cs nC kk))
        (seriesMin (stratumCells rI cs nC kk)) := by
  rw [stratumCells, zip_zip_map, List.filter_map, List.map_map]
  simp only [Function.comp_def]
  have heq : ((rI.zip cs).filter (fun rc => rc.1.take nC = kk)).map
      (fun rc : List FeatureElem × Option ℚ =>
        Option.map abs (cellSub rc.2 (sub (rc.1.take nC)))) =
      ((rI.zip cs).filter (fun rc => rc.1.take nC = kk)).map
      (fun rc : List FeatureElem × Option ℚ =>
        Option.map abs (cellSub rc.2 (sub kk))) := by
    apply List.map_congr_left
    intro rc hrc
    have hpred : rc.1.take nC = kk := by
      simpa using (List.mem_filter.mp hrc).2
    rw [hpred]
  rw [heq, hsub]
  have hmapped : ((rI.zip cs).filter (fun rc => rc.1.take nC = kk)).map
      (fun rc : List FeatureElem × Option ℚ =>
        Option.map abs (cellSub rc.2
          (seriesMin (stratumCells rI cs nC kk)))) =
      (stratumCells rI cs nC kk).map (fun x => Option.map abs (cellSub x
        (seriesMin (stratumCells rI cs nC kk)))) := by
    rw [stratumCells, List.map_map]
    rfl
  rw [hmapped]
  exact seriesMax_abs_sub_min _ hsome

/-- C2: when every by-group cell is numeric, the `between_groups`
difference cell — computed in the source as the maximum over the
sensitive axis of `|by_group − group_min()|` — equals `group_max()` minus
`group_min()`, per metric function and per control stratum. -/
theorem difference_between_groups_eq_max_sub_min (t : MetricTable)
    (nCtrl : ℕ)
    (hcells : ∀ c ∈ t.columns, ∀ x ∈ c.2, Option.isSome x)
    (hlen : ∀ c ∈ t.columns, c.2.length = t.rowIndex.length)
    (n : String) (k : List FeatureElem) :
    (differenceBetweenGroups t nCtrl).atCell n k =
      cellSub ((groupMaxRaw t nCtrl).atCell n k)
        ((groupMinRaw t nCtrl).atCell n k) := by
  cases nCtrl with
  | zero =>
    simp only [differenceBetweenGroups, groupMaxRaw, groupMinRaw,
      GroupResult.atCell, alookup_map_key, List.find?_map,
      Function.comp_def]
    cases hf : t.columns.find? (fun c => c.1 = n) with
    | none => simp [hf, cellSub]
    | some c0 =>
      have hc0 : c0.1 = n := by simpa using List.find?_some hf
      have hc0mem : c0 ∈ t.columns := List.mem_of_find?_eq_some hf
      simp only [hf, hc0, Option.map_some', Option.some_bind, Option.join,
        id_eq]
      rw [zip_map_snd_fun t.rowIndex c0.2
        (fun x => Option.map abs (cellSub x (seriesMin c0.2)))
        (hlen c0 hc0mem)]
      exact seriesMax_abs_sub_min c0.2 (hcells c0 hc0mem)
  | succ m =>
    have hmax := atCell_table_map (strata t.rowIndex (m + 1)) t.columns
      (fun c kk => seriesMax (stratumCells t.rowIndex c.2 (m + 1) kk)) n k
    have hmin := atCell_table_map (strata t.rowIndex (m + 1)) t.columns
      (fun c kk => seriesMin (stratumCells t.rowIndex c.2 (m + 1) kk)) n k
    have hdiff := atCell_table_map (strata t.rowIndex (m + 1))
      (t.columns.map (fun c => (c.1, (t.rowIndex.zip c.2).map (fun rc =>
        Option.map abs (cellSub rc.2
          ((groupMinRaw t (m + 1)).atCell c.1 (rc.1.take (m + 1))))))))
      (fun c kk => seriesMax (stratumCells t.rowIndex c.2 (m + 1) kk)) n k
    rw [show (differenceBetweenGroups t (m + 1)).atCell n k =
        (GroupResult.table (MetricTable.mk (strata t.rowIndex (m + 1))
          ((t.columns.map (fun c => (c.1, (t.rowIndex.zip c.2).map
            (fun rc => Option.map abs (cellSub rc.2
              ((groupMinRaw t (m + 1)).atCell c.1 (rc.1.take (m + 1)))))))).map
            (fun c => (c.1, (strata t.rowIndex (m + 1)).map
              (fun kk => seriesMax
                (stratumCells t.rowIndex c.2 (m + 1) kk))))))).atCell
          n k from rfl]
    rw [hdiff]
    rw [show (groupMaxRaw t (m + 1)).atCell n k =
        (GroupResult.table (MetricTable.mk (strata t.rowIndex (m + 1))
          (t.columns.map (fun c => (c.1,
            (strata t.rowIndex (m + 1)).map (fun kk =>
              seriesMax (stratumCells t.rowIndex c.2 (m + 1) kk))))))).atCell
          n k from rfl, hmax]
    rw [show (groupMinRaw t (m + 1)).atCell n k =
        (GroupResult.table (MetricTable.mk (strata t.rowIndex (m + 1))
          (t.columns.map (fun c => (c.1,
            (strata t.rowIndex (m + 1)).map (fun kk =>
              seriesMin (stratumCells t.rowIndex c.2 (m + 1) kk))))))).atCell
          n k from rfl, hmin]
    rw [List.find?_map]
    simp only [Function.comp_def]
    cases hf : t.columns.find? (fun c => c.1 = n) with
    | none => simp [cellSub]
    | some c0 =>
      have hc0 : c0.1 = n := by simpa using List.find?_some hf
      have hc0mem : c0 ∈ t.columns := List.mem_of_find?_eq_some hf
      cases hk : (strata t.rowIndex (m + 1)).find? (fun x => x = k) with
      | none => simp [cellSub]
      | some kk =>
        have hkk : kk = k := by simpa using List.find?_some hk
        subst hkk
        simp only [Option.map_some']
        have hSC : ∀ x ∈ stratumCells t.rowIndex c0.2 (m + 1) kk,
            Option.isSome x := by
          intro x hx
          simp only [stratumCells, List.mem_map] at hx
          obtain ⟨rc, hrc, rfl⟩ := hx
          exact hcells c0 hc0mem rc.2
            (List.of_mem_zip (List.mem_of_mem_filter hrc)).2
        have hsub : (groupMinRaw t (m + 1)).atCell c0.1 kk =
            seriesMin (stratumCells t.rowIndex c0.2 (m + 1) kk) := by
          have hmin2 := atCell_table_map (strata t.rowIndex (m + 1)) t.columns
            (fun c kk2 => seriesMin (stratumCells t.rowIndex c.2 (m + 1) kk2))
            c0.1 kk
          rw [show (groupMinRaw t (m + 1)).atCell c0.1 kk =
              (GroupResult.table (MetricTable.mk (strata t.rowIndex (m + 1))
                (t.columns.map (fun c => (c.1,
                  (strata t.rowIndex (m + 1)).map (fun kk2 =>
                    seriesMin
                      (stratumCells t.rowIndex c.2 (m + 1) kk2))))))).atCell
                c0.1 kk from rfl, hmin2]
          rw [hc0, hf, hk]
        exact diff_stratum_core t.rowIndex c0.2 (m + 1) kk
          (fun key => (groupMinRaw t (m + 1)).atCell c0.1 key) hsub hSC

/-- C2 witness: the two-group table `{a: 1, b: 1/2}`; the
`between_groups` difference is `1 − 1/2 = 1/2`. -/
theorem difference_between_groups_eq_max_sub_min_witness :
    (differenceBetweenGroups (MetricTable.mk
        [[FeatureElem.scalar "a"], [FeatureElem.scalar "b"]]
        [("metric", [some 1, some (1/2 : ℚ)])]) 0).atCell "metric" [] =
      cellSub
        ((groupMaxRaw (MetricTable.mk
          [[FeatureElem.scalar "a"], [FeatureElem.scalar "b"]]
          [("metric", [some 1, some (1/2 : ℚ)])]) 0).atCell "metric" [])
        ((groupMinRaw (MetricTable.mk
          [[FeatureElem.scalar "a"], [FeatureElem.scalar "b"]]
          [("metric", [some 1, some (1/2 : ℚ)])]) 0).atCell "metric" []) :=
  difference_between_groups_eq_max_sub_min (MetricTable.mk
    [[FeatureElem.scalar "a"], [FeatureElem.scalar "b"]]
    [("metric", [some 1, some (1/2 : ℚ)])]) 0
    (by decide) (by decide) "metric" []

/-! ## Claim C4 (continued) — exclusion also under control features -/

/-- Membership in the first-seen dedup with an accumulator. -/
theorem mem_firstSeenAux {α : Type} [DecidableEq α] (l : List α)
    (seen : List α) (x : α) :
    x ∈ firstSeenAux seen l ↔ x ∈ l ∧ x ∉ seen := by
  induction l generalizing seen with
  | nil => simp [firstSeenAux]
  | cons a l ih =>
    by_cases ha : a ∈ seen
    · rw [firstSeenAux, if_pos ha, ih]
      simp only [List.mem_cons]
      constructor
      · rintro ⟨hx, hns⟩
        exact ⟨Or.inr hx, hns⟩
      · rintro ⟨hx | hx, hns⟩
        · subst hx
          exact absurd ha hns
        · exact ⟨hx, hns⟩
    · rw [firstSeenAux, if_neg ha]
      simp only [List.mem_cons]
      constructor
      · intro hx
        rcases hx with rfl | hx'
        · exact ⟨Or.inl rfl, ha⟩
        · have := (ih (a :: seen)).mp hx'
          exact ⟨Or.inr this.1,
            fun hs => this.2 (List.mem_cons_of_mem a hs)⟩
      · rintro ⟨hx, hns⟩
        by_cases hxa : x = a
        · subst hxa
          exact Or.inl rfl
        · rcases hx with rfl | hx'
          · exact absurd rfl hxa
          · refine Or.inr ((ih (a :: seen)).mpr ⟨hx', ?_⟩)
            intro hs
            rcases List.mem_cons.mp hs with h1 | h2
            · exact hxa h1
            · exact hns h2

/-- First-seen dedup preserves membership. -/
theorem mem_firstSeen {α : Type} [DecidableEq α] (l : List α) (x : α) :
    x ∈ firstSeen l ↔ x ∈ l := by
  rw [firstSeen, mem_firstSeenAux]
  simp

/-- Stratum cells of a column that is a map over its own row index. -/
theorem stratumCells_self_map (L : List (List FeatureElem))
    (g : List FeatureElem → Option ℚ) (nC : ℕ) (k : List FeatureElem) :
    stratumCells L (L.map g) nC k =
      (L.filter (fun t => t.take nC = k)).map g := by
  rw [stratumCells, zip_self_map, List.filter_map, List.map_map]
  rfl

/-- Restricting the rows to a predicate that holds wherever the cell is
present does not change a stratum max. -/
theorem seriesMax_stratum_restrict (L : List (List FeatureElem))
    (P : List FeatureElem → Bool) (g : List FeatureElem → Option ℚ)
    (nC : ℕ) (k : List FeatureElem)
    (hg : ∀ x, P x = false → g x = none) :
    seriesMax (stratumCells L (L.map g) nC k) =
      seriesMax (stratumCells (L.filter P) ((L.filter P).map g) nC k) := by
  rw [stratumCells_self_map, stratumCells_self_map, List.filter_comm]
  exact seriesMax_filter (L.filter (fun t => t.take nC = k)) P g hg

/-- Restricting the rows does not change a stratum min. -/
theorem seriesMin_stratum_restrict (L : List (List FeatureElem))
    (P : List FeatureElem → Bool) (g : List FeatureElem → Option ℚ)
    (nC : ℕ) (k : List FeatureElem)
    (hg : ∀ x, P x = false → g x = none) :
    seriesMin (stratumCells L (L.map g) nC k) =
      seriesMin (stratumCells (L.filter P) ((L.filter P).map g) nC k) := by
  rw [stratumCells_self_map, stratumCells_self_map, List.filter_comm]
  exact seriesMin_filter (L.filter (fun t => t.take nC = k)) P g hg

/-- The grouped (`groupby`) max over a keyed table is unchanged, cell by
cell, by dropping the rows whose cells are forced absent — a stratum that
vanishes entirely reads `none` on both sides. -/
theorem atCell_grouped_map_restrict_max {γ : Type} (l : List γ)
    (kf : γ → String) (g : γ → List FeatureElem → Option ℚ)
    (L : List (List FeatureElem)) (P : List FeatureElem → Bool)
    (hg : ∀ c x, P x = false → g c x = none)
    (m : ℕ) (n : String) (k : List FeatureElem) :
    (GroupResult.table (MetricTable.mk (strata L (m + 1))
        ((l.map (fun c => (kf c, L.map (g c)))).map (fun c =>
          (c.1, (strata L (m + 1)).map (fun kk =>
            seriesMax (stratumCells L c.2 (m + 1) kk))))))).atCell n k =
      (GroupResult.table (MetricTable.mk (strata (L.filter P) (m + 1))
        ((l.map (fun c => (kf c, (L.filter P).map (g c)))).map (fun c =>
          (c.1, (strata (L.filter P) (m + 1)).map (fun kk =>
            seriesMax (stratumCells (L.filter P) c.2
              (m + 1) kk))))))).atCell n k := by
  rw [atCell_table_map, atCell_table_map, List.find?_map, List.find?_map]
  simp only [Function.comp_def]
  cases hffc : l.find? (fun c => kf c = n) with
  | none => rfl
  | some c0 =>
    simp only [Option.map_some']
    cases hk1 : (strata L (m + 1)).find? (fun x => x = k) with
    | some kk1 =>
      have h1 : kk1 = k := by simpa using List.find?_some hk1
      cases hk2 : (strata (L.filter P) (m + 1)).find? (fun x => x = k) with
      | some kk2 =>
        have h2 : kk2 = k := by simpa using List.find?_some hk2
        show seriesMax (stratumCells L (L.map (g c0)) (m + 1) kk1) =
          seriesMax (stratumCells (L.filter P) ((L.filter P).map (g c0))
            (m + 1) kk2)
        rw [h1, h2]
        exact seriesMax_stratum_restrict L P (g c0) (m + 1) k
          (fun x hx => hg c0 x hx)
      | none =>
        have hempty : (L.filter P).filter
            (fun t => t.take (m + 1) = k) = [] := by
          rw [List.filter_eq_nil_iff]
          intro t ht hp
          have hmem : k ∈ strata (L.filter P) (m + 1) := by
            rw [strata, mem_firstSeen]
            exact List.mem_map.mpr ⟨t, ht, by simpa using hp⟩
          have hne := List.find?_eq_none.mp hk2 k hmem
          simp at hne
        show seriesMax (stratumCells L (L.map (g c0)) (m + 1) kk1) = none
        rw [h1, seriesMax_stratum_restrict L P (g c0) (m + 1) k
          (fun x hx => hg c0 x hx), stratumCells_self_map, hempty]
        rfl
    | none =>
      cases hk2 : (strata (L.filter P) (m + 1)).find? (fun x => x = k) with
      | none => rfl
      | some kk2 =>
        exfalso
        have h2 : kk2 = k := by simpa using List.find?_some hk2
        have hmem2 := List.mem_of_find?_eq_some hk2
        rw [strata, mem_firstSeen] at hmem2
        obtain ⟨t, ht, htake⟩ := List.mem_map.mp hmem2
        have htL : t ∈ L := List.mem_of_mem_filter ht
        have hmem1 : kk2 ∈ strata L (m + 1) := by
          rw [strata, mem_firstSeen]
          exact List.mem_map.mpr ⟨t, htL, htake⟩
        have hne := List.find?_eq_none.mp hk1 kk2 hmem1
        rw [h2] at hne
        simp at hne

/-- The grouped (`groupby`) min, dually. -/
theorem atCell_grouped_map_restrict_min {γ : Type} (l : List γ)
    (kf : γ → String) (g : γ → List FeatureElem → Option ℚ)
    (L : List (List FeatureElem)) (P : List FeatureElem → Bool)
    (hg : ∀ c x, P x = false → g c x = none)
    (m : ℕ) (n : String) (k : List FeatureElem) :
    (GroupResult.table (MetricTable.mk (strata L (m + 1))
        ((l.map (fun c => (kf c, L.map (g c)))).map (fun c =>
          (c.1, (strata L (m + 1)).map (fun kk =>
            seriesMin (stratumCells L c.2 (m + 1) kk))))))).atCell n k =
      (GroupResult.table (MetricTable.mk (strata (L.filter P) (m + 1))
        ((l.map (fun c => (kf c, (L.filter P).map (g c)))).map (fun c =>
          (c.1, (strata (L.filter P) (m + 1)).map (fun kk =>
            seriesMin (stratumCells (L.filter P) c.2
              (m + 1) kk))))))).atCell n k := by
  rw [atCell_table_map, atCell_table_map, List.find?_map, List.find?_map]
  simp only [Function.comp_def]
  cases hffc : l.find? (fun c => kf c = n) with
  | none => rfl
  | some c0 =>
    simp only [Option.map_some']
    cases hk1 : (strata L (m + 1)).find? (fun x => x = k) with
    | some kk1 =>
      have h1 : kk1 = k := by simpa using List.find?_some hk1
      cases hk2 : (strata (L.filter P) (m + 1)).find? (fun x => x = k) with
      | some kk2 =>
        have h2 : kk2 = k := by simpa using List.find?_some hk2
        show seriesMin (stratumCells L (L.map (g c0)) (m + 1) kk1) =
          seriesMin (stratumCells (L.filter P) ((L.filter P).map (g c0))
            (m + 1) kk2)
        rw [h1, h2]
        exact seriesMin_stratum_restrict L P (g c0) (m + 1) k
          (fun x hx => hg c0 x hx)
      | none =>
        have hempty : (L.filter P).filter
            (fun t => t.take (m + 1) = k) = [] := by
          rw [List.filter_eq_nil_iff]
          intro t ht hp
          have hmem : k ∈ strata (L.filter P) (m + 1) := by
            rw [strata, mem_firstSeen]
            exact List.mem_map.mpr ⟨t, ht, by simpa using hp⟩
          have hne := List.find?_eq_none.mp hk2 k hmem
          simp at hne
        show seriesMin (stratumCells L (L.map (g c0)) (m + 1) kk1) = none
        rw [h1, seriesMin_stratum_restrict L P (g c0) (m + 1) k
          (fun x hx => hg c0 x hx), stratumCells_self_map, hempty]
        rfl
    | none =>
      cases hk2 : (strata (L.filter P) (m + 1)).find? (fun x => x = k) with
      | none => rfl
      | some kk2 =>
        exfalso
        have h2 : kk2 = k := by simpa using List.find?_some hk2
        have hmem2 := List.mem_of_find?_eq_some hk2
        rw [strata, mem_firstSeen] at hmem2
        obtain ⟨t, ht, htake⟩ := List.mem_map.mp hmem2
        have htL : t ∈ L := List.mem_of_mem_filter ht
        have hmem1 : kk2 ∈ strata L (m + 1) := by
          rw [strata, mem_firstSeen]
          exact List.mem_map.mpr ⟨t, htL, htake⟩
        have hne := List.find?_eq_none.mp hk1 kk2 hmem1
        rw [h2] at hne
        simp at hne

/-- C4: a row combination whose combined mask selects zero samples gets
an absent (`none`) cell in every function column — the guard
`if sum(mask) > 0` means no metric function is ever evaluated on it
(its mask is not among the evaluated masks) — and such absent cells are
excluded from `group_max`/`group_min`: without control features the two
aggregates coincide with their values on the table restricted to the
non-empty-mask combinations, and for *every* number of control levels
(including the `groupby(level=control_levels)` branch) every cell of the
grouped max/min equals its restricted-table counterpart. -/
theorem empty_mask_cell_absent_and_excluded
    (funcs : List FunctionContainer) (yt yp : List ℚ)
    (rows : List GroupFeature) (tup : List FeatureElem)
    (h0 : maskCount (maskFromTuple rows tup) = 0) :
    (∀ n ∈ (computeDataframeFromRows funcs yt yp rows).columns.map Prod.fst,
      (computeDataframeFromRows funcs yt yp rows).cellAt n tup = none) ∧
    maskFromTuple rows tup ∉ calledMasks rows ∧
    groupMaxRaw (computeDataframeFromRows funcs yt yp rows) 0 =
      groupMaxRaw (restrictNonempty funcs yt yp rows) 0 ∧
    groupMinRaw (computeDataframeFromRows funcs yt yp rows) 0 =
      groupMinRaw (restrictNonempty funcs yt yp rows) 0 ∧
    (∀ (nCtrl : ℕ) (n : String) (k : List FeatureElem),
      (groupMaxRaw (computeDataframeFromRows funcs yt yp rows)
          nCtrl).atCell n k =
        (groupMaxRaw (restrictNonempty funcs yt yp rows) nCtrl).atCell n k) ∧
    (∀ (nCtrl : ℕ) (n : String) (k : List FeatureElem),
      (groupMinRaw (computeDataframeFromRows funcs yt yp rows)
          nCtrl).atCell n k =
        (groupMinRaw (restrictNonempty funcs yt yp rows) nCtrl).atCell n k) := by
  have hgnone : ∀ x, (maskCount (maskFromTuple rows x) > 0 : Bool) = false →
      ∀ (fc : FunctionContainer),
      (if maskCount (maskFromTuple rows x) > 0
        then some (fc.evaluate yt yp (maskFromTuple rows x)) else none) =
        none := by
    intro x hx fc
    rw [if_neg]
    intro hc
    rw [decide_eq_true hc] at hx
    cases hx
  have h1 : ∀ n ∈ (computeDataframeFromRows funcs yt yp rows).columns.map
      Prod.fst,
      (computeDataframeFromRows funcs yt yp rows).cellAt n tup = none := by
    intro n hn
    simp only [computeDataframeFromRows, MetricTable.cellAt]
    rw [alookup_map_key]
    cases hfind : funcs.find? (fun fc => fc.name_ = n) with
    | none => simp
    | some fc =>
      simp only [Option.map_some', Option.some_bind]
      rw [zip_map_find?_snd]
      cases hf2 : (crossProduct (rows.map GroupFeature.classes)).find?
          (fun x => x = tup) with
      | none => simp
      | some x =>
        have hx : x = tup := by
          have := List.find?_some hf2
          simpa using this
        subst hx
        simp [h0]
  have h2 : maskFromTuple rows tup ∉ calledMasks rows := by
    intro hmem
    have := (List.mem_filter.mp hmem).2
    simp only [h0] at this
    cases this
  have h3 : groupMaxRaw (computeDataframeFromRows funcs yt yp rows) 0 =
      groupMaxRaw (restrictNonempty funcs yt yp rows) 0 := by
    simp only [groupMaxRaw, restrictNonempty, computeDataframeFromRows]
    congr 1
    rw [List.map_map, List.map_map]
    apply List.map_congr_left
    intro fc _
    simp only [Function.comp]
    refine congrArg (Prod.mk fc.name_) ?_
    exact seriesMax_filter _ (fun t => maskCount (maskFromTuple rows t) > 0)
      _ (fun x hx => hgnone x hx fc)
  have h4 : groupMinRaw (computeDataframeFromRows funcs yt yp rows) 0 =
      groupMinRaw (restrictNonempty funcs yt yp rows) 0 := by
    simp only [groupMinRaw, restrictNonempty, computeDataframeFromRows]
    congr 1
    rw [List.map_map, List.map_map]
    apply List.map_congr_left
    intro fc _
    simp only [Function.comp]
    refine congrArg (Prod.mk fc.name_) ?_
    exact seriesMin_filter _ (fun t => maskCount (maskFromTuple rows t) > 0)
      _ (fun x hx => hgnone x hx fc)
  refine ⟨h1, h2, h3, h4, ?_, ?_⟩
  · intro nCtrl n k
    cases nCtrl with
    | zero => rw [h3]
    | succ m =>
      rw [show (groupMaxRaw (computeDataframeFromRows funcs yt yp rows)
          (m + 1)).atCell n k =
          (GroupResult.table (MetricTable.mk
            (strata (crossProduct (rows.map GroupFeature.classes)) (m + 1))
            ((funcs.map (fun fc => (fc.name_,
              (crossProduct (rows.map GroupFeature.classes)).map
                ((fun fc t => if maskCount (maskFromTuple rows t) > 0
                  then some (fc.evaluate yt yp (maskFromTuple rows t))
                  else none) fc)))).map (fun c =>
              (c.1, (strata (crossProduct (rows.map GroupFeature.classes))
                  (m + 1)).map (fun kk =>
                seriesMax (stratumCells
                  (crossProduct (rows.map GroupFeature.classes)) c.2
                  (m + 1) kk))))))).atCell n k from rfl]
      rw [show (groupMaxRaw (restrictNonempty funcs yt yp rows)
          (m + 1)).atCell n k =
          (GroupResult.table (MetricTable.mk
            (strata ((crossProduct (rows.map GroupFeature.classes)).filter
              (fun t => maskCount (maskFromTuple rows t) > 0)) (m + 1))
            ((funcs.map (fun fc => (fc.name_,
              ((crossProduct (rows.map GroupFeature.classes)).filter
                (fun t => maskCount (maskFromTuple rows t) > 0)).map
                ((fun fc t => if maskCount (maskFromTuple rows t) > 0
                  then some (fc.evaluate yt yp (maskFromTuple rows t))
                  else none) fc)))).map (fun c =>
              (c.1, (strata ((crossProduct
                  (rows.map GroupFeature.classes)).filter
                  (fun t => maskCount (maskFromTuple rows t) > 0))
                  (m + 1)).map (fun kk =>
                seriesMax (stratumCells ((crossProduct
                  (rows.map GroupFeature.classes)).filter
                  (fun t => maskCount (maskFromTuple rows t) > 0)) c.2
                  (m + 1) kk))))))).atCell n k from rfl]
      exact atCell_grouped_map_restrict_max funcs
        (fun fc => fc.name_)
        (fun fc t => if maskCount (maskFromTuple rows t) > 0
          then some (fc.evaluate yt yp (maskFromTuple rows t)) else none)
        (crossProduct (rows.map GroupFeature.classes))
        (fun t => maskCount (maskFromTuple rows t) > 0)
        (fun c x hx => hgnone x hx c) m n k
  · intro nCtrl n k
    cases nCtrl with
    | zero => rw [h4]
    | succ m =>
      rw [show (groupMinRaw (computeDataframeFromRows funcs yt yp rows)
          (m + 1)).atCell n k =
          (GroupResult.table (MetricTable.mk
            (strata (crossProduct (rows.map GroupFeature.classes)) (m + 1))
            ((funcs.map (fun fc => (fc.name_,
              (crossProduct (rows.map GroupFeature.classes)).map
                ((fun fc t => if maskCount (maskFromTuple rows t) > 0
                  then some (fc.evaluate yt yp (maskFromTuple rows t))
                  else none) fc)))).map (fun c =>
              (c.1, (strata (crossProduct (rows.map GroupFeature.classes))
                  (m + 1)).map (fun kk =>
                seriesMin (stratumCells
                  (crossProduct (rows.map GroupFeature.classes)) c.2
                  (m + 1) kk))))))).atCell n k from rfl]
      rw [show (groupMinRaw (restrictNonempty funcs yt yp rows)
          (m + 1)).atCell n k =
          (GroupResult.table (MetricTable.mk
            (strata ((crossProduct (rows.map GroupFeature.classes)).filter
              (fun t => maskCount (maskFromTuple rows t) > 0)) (m + 1))
            ((funcs.map (fun fc => (fc.name_,
              ((crossProduct (rows.map GroupFeature.classes)).filter
                (fun t => maskCount (maskFromTuple rows t) > 0)).map
                ((fun fc t => if maskCount (maskFromTuple rows t) > 0
                  then some (fc.evaluate yt yp (maskFromTuple rows t))
                  else none) fc)))).map (fun c =>
              (c.1, (strata ((crossProduct
                  (rows.map GroupFeature.classes)).filter
                  (fun t => maskCount (maskFromTuple rows t) > 0))
                  (m + 1)).map (fun kk =>
                seriesMin (stratumCells ((crossProduct
                  (rows.map GroupFeature.classes)).filter
                  (fun t => maskCount (maskFromTuple rows t) > 0)) c.2
                  (m + 1) kk))))))).atCell n k from rfl]
      exact atCell_grouped_map_restrict_min funcs
        (fun fc => fc.name_)
        (fun fc t => if maskCount (maskFromTuple rows t) > 0
          then some (fc.evaluate yt yp (maskFromTuple rows t)) else none)
        (crossProduct (rows.map GroupFeature.classes))
        (fun t => maskCount (maskFromTuple rows t) > 0)
        (fun c x hx => hgnone x hx c) m n k

/-- C4 witness: features `A = [x, y]`, `B = [u, v]` (paired rows), so the
combination `(x, v)` never occurs: its cell is absent, the group
aggregates ignore it, and with `A` as a control level the grouped max at
stratum `x` also ignores it. -/
theorem empty_mask_cell_absent_and_excluded_witness :
    (computeDataframeFromRows [⟨"metric", zeroMetric, []⟩] [0, 1] [0, 1]
        [⟨"A", [.scalar "x", .scalar "y"]⟩, ⟨"B", [.scalar "u", .scalar "v"]⟩]).cellAt
      "metric" [.scalar "x", .scalar "v"] = none ∧
    groupMaxRaw (computeDataframeFromRows [⟨"metric", zeroMetric, []⟩] [0, 1] [0, 1]
        [⟨"A", [.scalar "x", .scalar "y"]⟩, ⟨"B", [.scalar "u", .scalar "v"]⟩]) 0 =
      groupMaxRaw (restrictNonempty [⟨"metric", zeroMetric, []⟩] [0, 1] [0, 1]
        [⟨"A", [.scalar "x", .scalar "y"]⟩, ⟨"B", [.scalar "u", .scalar "v"]⟩]) 0 ∧
    (groupMaxRaw (computeDataframeFromRows [⟨"metric", zeroMetric, []⟩] [0, 1] [0, 1]
        [⟨"A", [.scalar "x", .scalar "y"]⟩,
          ⟨"B", [.scalar "u", .scalar "v"]⟩]) 1).atCell
        "metric" [.scalar "x"] =
      (groupMaxRaw (restrictNonempty [⟨"metric", zeroMetric, []⟩] [0, 1] [0, 1]
        [⟨"A", [.scalar "x", .scalar "y"]⟩,
          ⟨"B", [.scalar "u", .scalar "v"]⟩]) 1).atCell
        "metric" [.scalar "x"] := by
  have H := empty_mask_cell_absent_and_excluded [⟨"metric", zeroMetric, []⟩]
    [0, 1] [0, 1]
    [⟨"A", [.scalar "x", .scalar "y"]⟩, ⟨"B", [.scalar "u", .scalar "v"]⟩]
    [.scalar "x", .scalar "v"] (by decide)
  exact ⟨H.1 "metric" (by decide), H.2.2.1,
    H.2.2.2.2.1 1 "metric" [.scalar "x"]⟩

/-! ## Claim C1 — streaming equals non-streaming on any batch split -/

/-- One `add_data` call's arguments, with a flat-list sensitive feature
column (the other shapes concatenate the same way, see
`concatBatches`). -/
structure AddBatch where
  yt : List ℚ
  yp : List ℚ
  sf : List FeatureElem
  cf : Option (List FeatureElem)
  sp : Option (List (String × List ℚ))
  deriving DecidableEq

/-- The `control_features` argument as passed to `add_data`
(`None` when omitted). -/
def AddBatch.cfBatch (b : AddBatch) : Batch FeatureElem :=
  match b.cf with
  | none => .pynone
  | some l => .arr l

/-- Feed a list of batches to `add_data` in order, stopping at the first
error. -/
def runBatches : StreamingState → List AddBatch → StreamingState × Option Err
  | st, [] => (st, none)
  | st, b :: bs =>
    match addData st b.yt b.yp (.arr b.sf) b.cfBatch b.sp with
    | (st', none) => runBatches st' bs
    | (st', some e) => (st', some e)

/-- A batch is internally consistent and matches the frame's mode: the
three data arrays share one length; control features are present with
that length exactly when the frame uses them; sample params are present
with the fixed key list `ks` and per-key arrays of that length exactly
when the frame streams them. -/
def validBatch (useCF useSP : Bool) (ks : List String) (b : AddBatch) :
    Bool :=
  b.yt.length == b.yp.length && (b.sf.length == b.yt.length &&
  ((match useCF, b.cf with
    | true, some l => l.length == b.yt.length
    | false, none => true
    | _, _ => false) &&
  (match useSP, b.sp with
    | true, some d => d.map Prod.fst == ks &&
        d.all (fun kv => kv.2.length == b.yt.length)
    | false, none => true
    | _, _ => false)))

/-- The buffer state reached after successfully adding `bs` to a fresh
streaming frame (proved below, `runBatches_accumulated`). -/
def accumulated (m : MetricSpec) (useCF useSP : Bool)
    (bs : List AddBatch) : StreamingState :=
  { streaming := true, metric := m,
    yTrue := bs.map (·.yt), yPred := bs.map (·.yp),
    sF := bs.map (fun b => Batch.arr b.sf),
    cF := if useCF then some (bs.map AddBatch.cfBatch) else none,
    sP := if useSP then
        (match bs with
          | [] => .noneSP
          | _ => .batches (bs.map (fun b => b.sp.getD [])))
      else .noneSP,
    overallCache := none, byGroupCache := none,
    sfNames := none, cfNames := none }

/-- The whole-dataset sample params: per key, the concatenation of the
per-batch arrays. -/
def spJoined (ks : List String) (bs : List AddBatch) :
    List (String × List ℚ) :=
  ks.map (fun kk => (kk, (bs.map (fun b => alookupD kk (b.sp.getD []))).flatten))

/-- Duplicating a value over a list dedups to a singleton. -/
theorem dedup_const (n : ℕ) (l : List ℕ) (h : ∀ x ∈ l, x = n) :
    (n :: l).dedup = [n] := by
  induction l with
  | nil => simp
  | cons x l ih =>
    have hx : x = n := h x (by simp)
    subst hx
    rw [List.dedup_cons_of_mem (by simp)]
    exact ih (fun y hy => h y (by simp [hy]))

/-- `check_consistent_length` accepts when every present length is the
same. -/
theorem ccl_const (n : ℕ) (ls : List (Option ℕ))
    (h : ∀ x ∈ ls, x = some n) :
    checkConsistentLength (some n :: ls) = .ok () := by
  have hfm : (some n :: ls).filterMap id = n :: ls.filterMap id := by simp
  have hmem : ∀ x ∈ ls.filterMap id, x = n := by
    intro x hx
    obtain ⟨o, ho, hid⟩ := List.mem_filterMap.mp hx
    have := h o ho
    subst this
    exact (by simpa using hid : n = x).symm
  simp only [checkConsistentLength, hfm, dedup_const n _ hmem,
    List.length_singleton, le_refl, if_true]

/-- A key of the assoc list has a `some` lookup. -/
theorem alookup_isSome_of_mem_keys {α : Type} (k : String)
    (l : List (String × List α)) (h : k ∈ l.map Prod.fst) :
    (alookup k l).isSome := by
  induction l with
  | nil => cases h
  | cons kv l ih =>
    by_cases hk : kv.1 = k
    · simp [alookup, hk]
    · have : k ∈ l.map Prod.fst := by
        rcases List.mem_map.mp h with ⟨x, hx, hfst⟩
        rcases List.mem_cons.mp hx with rfl | hmem
        · exact absurd hfst hk
        · exact List.mem_map.mpr ⟨x, hmem, hfst⟩
      simp [alookup, hk, ih this]

/-- Rewriting a nodup-keyed assoc-list map through its own lookups. -/
theorem keyed_map_eq (d : List (String × List ℚ)) (ks : List String)
    (hkeys : d.map Prod.fst = ks) (hnodup : ks.Nodup)
    (F : String → List ℚ → List ℚ) :
    d.map (fun kv => (kv.1, F kv.1 kv.2)) =
      ks.map (fun kk => (kk, F kk (alookupD kk d))) := by
  induction d generalizing ks with
  | nil => subst hkeys; rfl
  | cons kv d ih =>
    subst hkeys
    simp only [List.map_cons]
    have hnotin : kv.1 ∉ d.map Prod.fst := (List.nodup_cons.mp hnodup).1
    have htail : (d.map Prod.fst).map
        (fun kk => (kk, F kk (alookupD kk (kv :: d)))) =
        (d.map Prod.fst).map (fun kk => (kk, F kk (alookupD kk d))) := by
      apply List.map_congr_left
      intro kk hkk
      have hne : kv.1 ≠ kk := fun he => hnotin (he ▸ hkk)
      simp [alookupD, alookup, hne]
    rw [htail, ← ih (d.map Prod.fst) rfl (List.nodup_cons.mp hnodup).2]
    have hhead : alookupD kv.1 (kv :: d) = kv.2 := by
      simp [alookupD, alookup]
    rw [hhead]

/-- Adding one valid batch to an accumulated frame appends it to every
buffer and succeeds. -/
theorem addData_accumulated_step (m : MetricSpec) (useCF useSP : Bool)
    (ks : List String) (bs : List AddBatch) (b : AddBatch)
    (hb : validBatch useCF useSP ks b = true) :
    addData (accumulated m useCF useSP bs) b.yt b.yp (.arr b.sf)
        b.cfBatch b.sp =
      (accumulated m useCF useSP (bs ++ [b]), none) := by
  simp only [validBatch, Bool.and_eq_true, beq_iff_eq] at hb
  obtain ⟨hyp, hsf, hcf, hsp⟩ := hb
  have hccl1 : checkConsistentLength
      [some b.yt.length, some b.yp.length, (Batch.arr b.sf).pyLen] =
      .ok () := by
    have hpl : (Batch.arr b.sf).pyLen = some b.yt.length := by
      simp [Batch.pyLen, hsf]
    rw [hpl]
    exact ccl_const b.yt.length _ (by simp [hyp.symm])
  cases useCF with
  | false =>
    have hbc : b.cf = none := by
      revert hcf
      cases b.cf <;> simp
    cases useSP with
    | false =>
      have hbs : b.sp = none := by
        revert hsp
        cases b.sp <;> simp
      simp [addData, accumulated, AddBatch.cfBatch, hbc, hbs, hccl1,
        addDataSampleParams, resetCaches]
    | true =>
      obtain ⟨d, hbs, hdk, hdl⟩ : ∃ d, b.sp = some d ∧
          d.map Prod.fst = ks ∧ ∀ kv ∈ d, kv.2.length = b.yt.length := by
        revert hsp
        cases b.sp with
        | none => simp
        | some d =>
          intro h
          simp only [Bool.and_eq_true, beq_iff_eq, List.all_eq_true] at h
          exact ⟨d, rfl, h.1, fun kv hkv => h.2 kv hkv⟩
      have hccl2 : checkConsistentLength
          (some b.yt.length :: d.map (fun kv => some kv.2.length)) =
          .ok () := by
        apply ccl_const
        intro x hx
        obtain ⟨kv, hkv, rfl⟩ := List.mem_map.mp hx
        simp [hdl kv hkv]
      cases bs with
      | nil =>
        simp [addData, accumulated, AddBatch.cfBatch, hbc, hbs, hccl1,
          hccl2, addDataSampleParams, resetCaches]
      | cons b0 bs' =>
        simp [addData, accumulated, AddBatch.cfBatch, hbc, hbs, hccl1,
          hccl2, addDataSampleParams, resetCaches]
  | true =>
    obtain ⟨l, hbc, hlen⟩ : ∃ l, b.cf = some l ∧
        l.length = b.yt.length := by
      revert hcf
      cases b.cf with
      | none => simp
      | some l => intro h; exact ⟨l, rfl, by simpa using h⟩
    have hccl3 : checkConsistentLength
        [some b.yt.length, (Batch.arr l).pyLen] = .ok () := by
      have hpl : (Batch.arr l).pyLen = some b.yt.length := by
        simp [Batch.pyLen, hlen]
      rw [hpl]
      exact ccl_const b.yt.length _ (by simp)
    cases useSP with
    | false =>
      have hbs : b.sp = none := by
        revert hsp
        cases b.sp <;> simp
      simp [addData, accumulated, AddBatch.cfBatch, hbc, hbs, hccl1,
        hccl3, addDataSampleParams, resetCaches]
    | true =>
      obtain ⟨d, hbs, hdk, hdl⟩ : ∃ d, b.sp = some d ∧
          d.map Prod.fst = ks ∧ ∀ kv ∈ d, kv.2.length = b.yt.length := by
        revert hsp
        cases b.sp with
        | none => simp
        | some d =>
          intro h
          simp only [Bool.and_eq_true, beq_iff_eq, List.all_eq_true] at h
          exact ⟨d, rfl, h.1, fun kv hkv => h.2 kv hkv⟩
      have hccl2 : checkConsistentLength
          (some b.yt.length :: d.map (fun kv => some kv.2.length)) =
          .ok () := by
        apply ccl_const
        intro x hx
        obtain ⟨kv, hkv, rfl⟩ := List.mem_map.mp hx
        simp [hdl kv hkv]
      cases bs with
      | nil =>
        simp [addData, accumulated, AddBatch.cfBatch, hbc, hbs, hccl1,
          hccl2, hccl3, addDataSampleParams, resetCaches]
      | cons b0 bs' =>
        simp [addData, accumulated, AddBatch.cfBatch, hbc, hbs, hccl1,
          hccl2, hccl3, addDataSampleParams, resetCaches]

/-- Feeding valid batches to a frame accumulates them in order with no
error. -/
theorem runBatches_accumulated (m : MetricSpec) (useCF useSP : Bool)
    (ks : List String) (bs0 bs : List AddBatch)
    (h : ∀ b ∈ bs, validBatch useCF useSP ks b = true) :
    runBatches (accumulated m useCF useSP bs0) bs =
      (accumulated m useCF useSP (bs0 ++ bs), none) := by
  induction bs generalizing bs0 with
  | nil => simp [runBatches]
  | cons b bs ih =>
    simp only [runBatches]
    rw [addData_accumulated_step m useCF useSP ks bs0 b (h b (by simp))]
    rw [show (match (accumulated m useCF useSP (bs0 ++ [b]),
          (none : Option Err)) with
        | (st', none) => runBatches st' bs
        | (st', some e) => (st', some e)) =
        runBatches (accumulated m useCF useSP (bs0 ++ [b])) bs from rfl]
    rw [ih (bs0 ++ [b]) (fun b' hb' => h b' (by simp [hb']))]
    simp

/-- `_concat_batches` on a non-empty buffer of arrays is a plain join. -/
theorem concatBatches_arrs {α : Type} (l : List α) (ls : List (List α)) :
    concatBatches ((l :: ls).map Batch.arr) =
      .ok (.arr ((l :: ls).flatten)) := by
  simp only [List.map_cons, concatBatches]
  have htype : (ls.map Batch.arr).all (Batch.sameType (Batch.arr l)) =
      true := by
    rw [List.all_eq_true]
    intro b hb
    obtain ⟨x, _, rfl⟩ := List.mem_map.mp hb
    rfl
  simp only [htype, Bool.not_true, Bool.false_eq_true, if_false]
  have hmaps : (ls.map Batch.arr).map (fun b' => match b' with
      | Batch.arr ys => ys
      | _ => ([] : List α)) = ls := by
    rw [List.map_map]
    exact List.map_id'' (fun x => rfl) ls
  rw [hmaps]
  simp

/-- `_concat_batches` on the `y_true`/`y_pred` buffers. -/
theorem concatArrays_cons {α : Type} (l : List α) (ls : List (List α)) :
    concatArrays (l :: ls) = .ok ((l :: ls).flatten) := by
  simp only [concatArrays, concatBatches_arrs]

/-- Reading an accumulated streaming frame concatenates every buffer and
runs `_compute_metric` once on the joined data. -/
theorem computeStreaming_accumulated (m : MetricSpec) (useCF useSP : Bool)
    (ks : List String) (hnodup : ks.Nodup) (b : AddBatch)
    (bs' : List AddBatch)
    (hv : ∀ x ∈ b :: bs', validBatch useCF useSP ks x = true) :
    computeStreamingMetric (accumulated m useCF useSP (b :: bs')) =
      computeMetric m ((b :: bs').map (·.yt)).flatten
        ((b :: bs').map (·.yp)).flatten
        (.arr (((b :: bs').map (·.sf)).flatten))
        (if useCF then
          .arr (((b :: bs').map (fun x => x.cf.getD [])).flatten)
        else .pynone)
        (if useSP then some (spJoined ks (b :: bs')) else none) := by
  have hyt : concatArrays ((b :: bs').map (·.yt)) =
      .ok (((b :: bs').map (·.yt)).flatten) := by
    rw [List.map_cons, concatArrays_cons]
  have hyp : concatArrays ((b :: bs').map (·.yp)) =
      .ok (((b :: bs').map (·.yp)).flatten) := by
    rw [List.map_cons, concatArrays_cons]
  have hsf : concatBatches ((b :: bs').map (fun x => Batch.arr x.sf)) =
      .ok (.arr (((b :: bs').map (·.sf)).flatten)) := by
    have hrw : (b :: bs').map (fun x => Batch.arr x.sf) =
        (b.sf :: bs'.map (·.sf)).map Batch.arr := by
      simp [List.map_map]
    rw [hrw, concatBatches_arrs]
    simp
  cases useCF with
  | false =>
    cases useSP with
    | false =>
      simp only [computeStreamingMetric, accumulated, if_false, hyt, hyp,
        hsf, Bool.false_eq_true, bind, Except.bind]
    | true =>
      have hspc : concatBatches
          (((b :: bs').map (fun x => x.sp.getD [])).map Batch.dict) =
          .ok (.dict (spJoined ks (b :: bs'))) := by
        have hkeys : ∀ x ∈ b :: bs', (x.sp.getD []).map Prod.fst = ks := by
          intro x hx
          have hvx := hv x hx
          simp only [validBatch, Bool.and_eq_true, beq_iff_eq] at hvx
          have := hvx.2.2.2
          revert this
          cases x.sp with
          | none => simp
          | some d =>
            intro h
            simp only [Bool.and_eq_true, beq_iff_eq] at h
            exact h.1
        have hlook : ∀ d ∈ bs'.map (fun x => x.sp.getD []),
            ∀ kv ∈ b.sp.getD [], (alookup kv.1 d).isSome := by
          intro d hd kv hkv
          obtain ⟨x, hx, rfl⟩ := List.mem_map.mp hd
          apply alookup_isSome_of_mem_keys
          rw [hkeys x (by simp [hx])]
          rw [← hkeys b (by simp)]
          exact List.mem_map.mpr ⟨kv, hkv, rfl⟩
        rw [List.map_cons, List.map_cons, concatBatches_dict _ _ hlook]
        congr 1
        rw [keyed_map_eq (b.sp.getD []) ks (hkeys b (by simp)) hnodup
          (fun kk v => v ++
            ((bs'.map (fun x => x.sp.getD [])).map
              (fun d => alookupD kk d)).flatten)]
        simp only [spJoined, List.map_cons, List.flatten_cons]
        congr 1
        apply List.map_congr_left
        intro kk _
        rw [List.map_map]
        rfl
      simp only [computeStreamingMetric, accumulated, if_false, if_true,
        Bool.false_eq_true, hyt, hyp, hsf, hspc, bind, Except.bind]
  | true =>
    have hcfb : (b :: bs').map AddBatch.cfBatch =
        ((b :: bs').map (fun x => x.cf.getD [])).map Batch.arr := by
      rw [List.map_map]
      apply List.map_congr_left
      intro x hx
      have hvx := hv x hx
      simp only [validBatch, Bool.and_eq_true] at hvx
      have := hvx.2.2.1
      revert this
      cases hc : x.cf with
      | none => simp
      | some l =>
        intro _
        simp [AddBatch.cfBatch, hc, Function.comp_def]
    have hcfc : concatBatches ((b :: bs').map AddBatch.cfBatch) =
        .ok (.arr (((b :: bs').map (fun x => x.cf.getD [])).flatten)) := by
      rw [hcfb, List.map_cons, concatBatches_arrs]
    have hbuf : (b :: bs').map AddBatch.cfBatch =
        AddBatch.cfBatch b :: bs'.map AddBatch.cfBatch := by simp
    cases useSP with
    | false =>
      simp only [computeStreamingMetric, accumulated, if_true, hyt, hyp,
        hsf, Bool.false_eq_true, bind, Except.bind]
      rw [show (match some ((b :: bs').map AddBatch.cfBatch) with
          | none => (.ok Batch.pynone : Except Err (Batch FeatureElem))
          | some [] => .ok Batch.pynone
          | some buf => concatBatches buf) =
          concatBatches ((b :: bs').map AddBatch.cfBatch) from by
        rw [hbuf]]
      rw [hcfc]
      rfl
    | true =>
      have hspc : concatBatches
          (((b :: bs').map (fun x => x.sp.getD [])).map Batch.dict) =
          .ok (.dict (spJoined ks (b :: bs'))) := by
        have hkeys : ∀ x ∈ b :: bs', (x.sp.getD []).map Prod.fst = ks := by
          intro x hx
          have hvx := hv x hx
          simp only [validBatch, Bool.and_eq_true, beq_iff_eq] at hvx
          have := hvx.2.2.2
          revert this
          cases x.sp with
          | none => simp
          | some d =>
            intro h
            simp only [Bool.and_eq_true, beq_iff_eq] at h
            exact h.1
        have hlook : ∀ d ∈ bs'.map (fun x => x.sp.getD []),
            ∀ kv ∈ b.sp.getD [], (alookup kv.1 d).isSome := by
          intro d hd kv hkv
          obtain ⟨x, hx, rfl⟩ := List.mem_map.mp hd
          apply alookup_isSome_of_mem_keys
          rw [hkeys x (by simp [hx])]
          rw [← hkeys b (by simp)]
          exact List.mem_map.mpr ⟨kv, hkv, rfl⟩
        rw [List.map_cons, List.map_cons, concatBatches_dict _ _ hlook]
        congr 1
        rw [keyed_map_eq (b.sp.getD []) ks (hkeys b (by simp)) hnodup
          (fun kk v => v ++
            ((bs'.map (fun x => x.sp.getD [])).map
              (fun d => alookupD kk d)).flatten)]
        simp only [spJoined, List.map_cons, List.flatten_cons]
        congr 1
        apply List.map_congr_left
        intro kk _
        rw [List.map_map]
        rfl
      simp only [computeStreamingMetric, accumulated, if_true, hyt, hyp,
        hsf, hspc, bind, Except.bind]
      rw [show (match some ((b :: bs').map AddBatch.cfBatch) with
          | none => (.ok Batch.pynone : Except Err (Batch FeatureElem))
          | some [] => .ok Batch.pynone
          | some buf => concatBatches buf) =
          concatBatches ((b :: bs').map AddBatch.cfBatch) from by
        rw [hbuf]]
      rw [hcfc]

/-- Totals: the joined `y_pred` and sensitive columns have the joined
`y_true`'s length. -/
theorem flatten_lengths (useCF useSP : Bool) (ks : List String)
    (bs : List AddBatch)
    (hv : ∀ b ∈ bs, validBatch useCF useSP ks b = true) :
    ((bs.map (·.yp)).flatten).length = ((bs.map (·.yt)).flatten).length ∧
    ((bs.map (·.sf)).flatten).length = ((bs.map (·.yt)).flatten).length := by
  induction bs with
  | nil => simp
  | cons b bs ih =>
    have hvb := hv b (by simp)
    simp only [validBatch, Bool.and_eq_true, beq_iff_eq] at hvb
    have ihh := ih (fun b' hb' => hv b' (by simp [hb']))
    simp [hvb.1, hvb.2.1, ihh.1, ihh.2]

/-- C1: for every dataset and every split of it into `N ≥ 1` batches, a
streaming frame receiving the batches via `add_data` raises no error, and
reading it computes exactly what a non-streaming frame constructed
directly on the concatenated data computes — same metric, sensitive
features, control features and sample params (the joined control column
and the per-key-joined sample params), hence identical `overall` and
`by_group`. -/
theorem streaming_eq_direct (m : MetricSpec) (useCF useSP : Bool)
    (ks : List String) (hks : ks.Nodup) (bs : List AddBatch)
    (hne : bs ≠ [])
    (hv : ∀ b ∈ bs, validBatch useCF useSP ks b = true)
    (hdata : ((bs.map (·.yt)).flatten) ≠ []) :
    (runBatches (mkStreaming m useCF none) bs).2 = none ∧
    computeStreamingMetric (runBatches (mkStreaming m useCF none) bs).1 =
      mkNonStreaming m ((bs.map (·.yt)).flatten) ((bs.map (·.yp)).flatten)
        (.arr ((bs.map (·.sf)).flatten))
        (if useCF then .arr ((bs.map (fun x => x.cf.getD [])).flatten)
          else .pynone)
        (if useSP then some (spJoined ks bs) else none) := by
  have h0 : mkStreaming m useCF none = accumulated m useCF useSP [] := by
    cases useSP <;> cases useCF <;> rfl
  have hrun : runBatches (mkStreaming m useCF none) bs =
      (accumulated m useCF useSP bs, none) := by
    rw [h0]
    simpa using runBatches_accumulated m useCF useSP ks [] bs hv
  cases bs with
  | nil => exact absurd rfl hne
  | cons b bs' =>
    refine ⟨by rw [hrun], ?_⟩
    rw [hrun]
    rw [computeStreaming_accumulated m useCF useSP ks hks b bs' hv]
    have hlen := flatten_lengths useCF useSP ks (b :: bs') hv
    have hne' : ∀ (l : List ℚ), l ≠ [] → l.isEmpty = false := by
      intro l hl
      cases l with
      | nil => exact absurd rfl hl
      | cons x l => rfl
    have hyt0 : (((b :: bs').map (·.yt)).flatten).isEmpty = false :=
      hne' _ hdata
    have hyp0 : (((b :: bs').map (·.yp)).flatten).isEmpty = false := by
      cases hx : ((b :: bs').map (·.yp)).flatten with
      | nil =>
        exfalso
        apply hdata
        have := hlen.1
        rw [hx] at this
        exact List.eq_nil_of_length_eq_zero this.symm
      | cons x l => rfl
    have hsf0 : (Batch.arr (((b :: bs').map (·.sf)).flatten)).pyEmpty =
        false := by
      simp only [Batch.pyEmpty]
      cases hx : ((b :: bs').map (·.sf)).flatten with
      | nil =>
        exfalso
        apply hdata
        have := hlen.2
        rw [hx] at this
        exact List.eq_nil_of_length_eq_zero this.symm
      | cons x l => rfl
    have hccl : checkConsistentLength
        [some (((b :: bs').map (·.yt)).flatten).length,
          some (((b :: bs').map (·.yp)).flatten).length] = .ok () := by
      rw [hlen.1]
      exact ccl_const _ _ (by simp)
    simp only [mkNonStreaming, hyt0, hyp0, hsf0, Bool.or_false,
      Bool.false_eq_true, if_false, hccl, bind, Except.bind]

/-- A two-batch split of a six-element dataset with control features and
sample params. -/
def batch1 : AddBatch :=
  ⟨[1, 2], [1, 0], [.scalar "a", .scalar "b"],
    some [.scalar "x", .scalar "x"], some [("w", [1, 1])]⟩

/-- The second batch of the split. -/
def batch2 : AddBatch :=
  ⟨[3], [1], [.scalar "a"], some [.scalar "y"], some [("w", [2])]⟩

/-- C1 witness: the two-batch streaming frame accepts both batches and
its read equals the direct frame on the concatenated data. -/
theorem streaming_eq_direct_witness :
    (runBatches (mkStreaming (.single weightedSum) true none)
        [batch1, batch2]).2 = none ∧
    computeStreamingMetric (runBatches (mkStreaming (.single weightedSum)
        true none) [batch1, batch2]).1 =
      mkNonStreaming (.single weightedSum) [1, 2, 3] [1, 0, 1]
        (.arr [.scalar "a", .scalar "b", .scalar "a"])
        (.arr [.scalar "x", .scalar "x", .scalar "y"])
        (some [("w", [1, 1, 2])]) :=
  streaming_eq_direct (.single weightedSum) true true ["w"] (by decide)
    [batch1, batch2] (by decide) (by decide) (by decide)

end Fairlearn
